import Mathlib

/-!
Verification of the data-fusion / statistics pipeline of the
session-performance-analyzer repository (React component
`src/src/components/SessionAnalyzer.tsx`, plus the diagnostic variant
`src/unnamed/part_006` which adds the timestamp-difference duration path).

Strings are modelled as `List Char` (`Str`); JavaScript numbers are modelled
as exact rationals (`ℚ`).  `NaN` is modelled by `Option` (a `parseFloat`
result of `NaN` is `none`); the binary-double rounding of JavaScript
arithmetic and the `±Infinity` values are outside the model.  `toFixed`
is modelled as ideal decimal rounding, half away from zero, which is what
the ECMAScript algorithm computes on the (exact) argument value.
-/

/-- Strings of the modelled program: lists of characters. -/
abbrev Str : Type := List Char

/-- Converts a Lean string literal to the model's string type. -/
def strOf (s : String) : Str := s.data

/-- Whitespace characters relevant to JavaScript `trim` and `split` for the
CSV inputs of this program (space, tab, carriage return, newline). -/
def isWS (c : Char) : Bool := c = ' ' || c = '\t' || c = '\r' || c = '\n'

/-- Leading-whitespace removal. -/
def trimLeft (s : Str) : Str := List.dropWhile isWS s

/-- Models JavaScript `String.prototype.trim`: drop leading and trailing
whitespace. -/
def trimChars (s : Str) : Str := trimLeft (trimLeft s.reverse).reverse

/-- Models JavaScript `String.prototype.split` with a single-character
separator: `"a,b"` splits to `["a", "b"]`, `""` to `[""]`, and separators at
the ends produce empty segments, exactly as in ECMAScript. -/
def splitOnChar (c : Char) : List Char → List (List Char)
  | [] => [[]]
  | x :: xs =>
    match splitOnChar c xs with
    | [] => [[x]]
    | s :: ss => if x = c then [] :: s :: ss else (x :: s) :: ss

/-- A single or double quote character. -/
def isQuote (c : Char) : Bool := c = '"' || c = '\''

/-- Models `v.replace(/^["']|["']$/g, '')`: strip one leading and one
trailing single or double quote, when present. -/
def stripQuotes (s : Str) : Str :=
  let s1 : List Char := match s with
    | [] => []
    | c :: t => if isQuote c then t else c :: t
  match s1.reverse with
  | [] => []
  | c :: t => if isQuote c then t.reverse else (c :: t).reverse

/-- Does `hay` start with `pat`? -/
def strStartsWith : Str → Str → Bool
  | _, [] => true
  | [], _ :: _ => false
  | h :: t, p :: q => h = p && strStartsWith t q

/-- Models JavaScript `String.prototype.includes` (substring test). -/
def strIncludes (pat : Str) : Str → Bool
  | [] => strStartsWith [] pat
  | h :: t => strStartsWith (h :: t) pat || strIncludes pat t

/-- `h.includes(pat)` for a Lean string literal pattern. -/
def includes (h : Str) (pat : String) : Bool := strIncludes (strOf pat) h

/-- Cell access `values[i]`: an out-of-range access yields `undefined`,
which behaves like the empty string at every use site of this program
(falsy as a session id, `NaN` under `parseFloat`). -/
def cellAt (values : List Str) (i : Nat) : Str := (values.get? i).getD []

/-- Numeric value of a decimal digit character. -/
def digitVal (c : Char) : Nat := c.toNat - 48

/-- Decimal digit character of a value `< 10`. -/
def digitChar (d : Nat) : Char := Char.ofNat (48 + d)

/-- Value of a list of decimal digit characters, most significant first. -/
def digitsToNat (ds : List Char) : Nat := ds.foldl (fun a c => a * 10 + digitVal c) 0

/-- Exponent after `e`/`E` in a float literal; a malformed exponent
contributes nothing, as in `parseFloat("1e") = 1`. -/
def expPart (t : List Char) : ℤ :=
  let sgn : ℤ × List Char := match t with
    | '-' :: u => (-1, u)
    | '+' :: u => (1, u)
    | u => (1, u)
  let ds := List.span Char.isDigit sgn.2
  if ds.1 = [] then 0 else sgn.1 * (digitsToNat ds.1 : ℕ)

/-- The unsigned part of `parseFloat`: longest prefix of the form
`digits [. digits] [e|E [sign] digits]`; `none` when the mantissa has no
digit at all. -/
def parseUnsigned (s : Str) : Option ℚ :=
  let ipRest := List.span Char.isDigit s
  let fpRest : List Char × Str := match ipRest.2 with
    | '.' :: t => List.span Char.isDigit t
    | _ => ([], ipRest.2)
  if ipRest.1 = [] ∧ fpRest.1 = [] then none
  else
    let mant : ℚ := (digitsToNat ipRest.1 : ℚ) + (digitsToNat fpRest.1 : ℚ) / 10 ^ fpRest.1.length
    let ex : ℤ := match fpRest.2 with
      | 'e' :: t => expPart t
      | 'E' :: t => expPart t
      | _ => 0
    some (mant * (10 : ℚ) ^ ex)

/-- Models JavaScript `parseFloat`: skip leading whitespace, optional sign,
then the unsigned literal; `none` models a `NaN` result.  The `Infinity`
spellings accepted by `parseFloat` are outside the rational model. -/
def jsParseFloat (s : Str) : Option ℚ :=
  match trimLeft s with
  | [] => none
  | c :: t =>
    if c = '-' then (parseUnsigned t).map (fun x => -x)
    else if c = '+' then parseUnsigned t
    else parseUnsigned (c :: t)

/-- Models `Number(x.toFixed(2))`: round to two decimal places, half away
from zero (the ideal-decimal reading of the ECMAScript `toFixed`
algorithm). -/
def toFixed2 (q : ℚ) : ℚ :=
  if q < 0 then -((⌊-q * 100 + 1 / 2⌋ : ℚ) / 100) else (⌊q * 100 + 1 / 2⌋ : ℚ) / 100

/-- Decimal digit string of a natural number, modelling JavaScript's
`ToString` on integer values. -/
def natDigits (n : Nat) : Str :=
  if h : n < 10 then [digitChar n]
  else natDigits (n / 10) ++ [digitChar (n % 10)]
decreasing_by exact Nat.div_lt_self (Nat.lt_of_lt_of_le (by decide) (Nat.le_of_not_lt h)) (by decide)

/-- Number of decimal places used to print `q`: the least `k` with
`q.den ∣ 10 ^ k` when the expansion terminates (it always does for a
JavaScript binary double). -/
def decPlaces (q : ℚ) : Nat :=
  ((List.range (q.den + 1)).find? (fun k => decide (q.den ∣ 10 ^ k))).getD q.den

/-- Decimal string of a nonnegative rational with terminating expansion,
modelling JavaScript number-to-string conversion (shortest digit form,
no exponent notation — the pipeline's values stay well inside the range
where ECMAScript uses plain decimal notation). -/
def ratToStrNN (q : ℚ) : Str :=
  let k := decPlaces q
  let n := (q * 10 ^ k).num.toNat
  if k = 0 then natDigits n
  else
    natDigits (n / 10 ^ k) ++ '.' ::
      (List.replicate (k - (natDigits (n % 10 ^ k)).length) '0' ++ natDigits (n % 10 ^ k))

/-- JavaScript number-to-string conversion on the rational model. -/
def ratToString (q : ℚ) : Str :=
  if q < 0 then '-' :: ratToStrNN (-q) else ratToStrNN q

/-- A record parsed from the success-source ("Shopify") CSV. -/
structure ShopifyData where
  sessionId : Str
  orderId : Option Str
  successRate : ℚ
  timestamp : Option Str
deriving DecidableEq

/-- A record parsed from the duration-source ("AWS") CSV;
`sessionLength` is the duration in seconds. -/
structure AWSData where
  sessionId : Str
  sessionLength : ℚ
  userId : Option Str
  timestamp : Option Str
deriving DecidableEq

/-- A fused record: the inner-join of a success record and a duration
record on the session id. -/
structure FusedDataPoint where
  sessionId : Str
  sessionLength : ℚ
  successRate : ℚ
  sessionNumber : Nat
deriving DecidableEq

/-- The spec's parse-error taxonomy, mapped onto the three `throw` sites of
each parser: too few lines, unresolvable required columns (carrying the
header list), and zero valid data rows. -/
inductive ParseError where
  | MalformedInput : ParseError
  | MissingColumns : List Str → ParseError
  | EmptyResult : ParseError
deriving DecidableEq

/-- Header match for the success parser's session-id column
(`SessionAnalyzer.tsx:135`). -/
def shopifySessionIdHeader (h : Str) : Bool :=
  h = strOf "session_id" || h = strOf "sessionid" || h = strOf "session-id" ||
    (includes h "session" && includes h "id")

/-- Header match for the success parser's order-id column
(`SessionAnalyzer.tsx:139`). -/
def shopifyOrderIdHeader (h : Str) : Bool :=
  h = strOf "order_id" || h = strOf "orderid" || h = strOf "order-id" ||
    (includes h "order" && includes h "id")

/-- Header match for the success parser's success-rate column
(`SessionAnalyzer.tsx:143`). -/
def shopifySuccessRateHeader (h : Str) : Bool :=
  h = strOf "success_rate" || h = strOf "successrate" || h = strOf "success-rate" ||
    h = strOf "success_percent" || h = strOf "success_percentage" ||
    (includes h "success" && (includes h "rate" || includes h "percent"))

/-- Header match for the optional timestamp column of both parsers
(`SessionAnalyzer.tsx:148` and `:212`). -/
def timestampHeader (h : Str) : Bool :=
  includes h "timestamp" || includes h "date" || includes h "time"

/-- The success-rate normalization of `parseShopifyCSV`
(`SessionAnalyzer.tsx:166-171`): a value `≤ 1` is taken as a fraction and
scaled to a percentage; a value `> 1` is taken as already a percentage. -/
def normalizeSuccessRate (v : ℚ) : ℚ := if v ≤ 1 then v * 100 else v

/-- One data-row step of `parseShopifyCSV` (`SessionAnalyzer.tsx:156-180`):
split on commas, trim and quote-strip each cell, skip rows with fewer than
two cells, rows whose session id is falsy and rows whose success-rate cell
parses to `NaN`; otherwise emit a record with the normalized rate rounded
through `Number(x.toFixed(2))`. -/
def shopifyRow (si ri : Nat) (oi ti : Option Nat) (line : Str) : Option ShopifyData :=
  let values := (splitOnChar ',' line).map (fun v => stripQuotes (trimChars v))
  if values.length < 2 then none
  else
    match jsParseFloat (cellAt values ri) with
    | some v =>
      if cellAt values si = [] then none
      else some ⟨cellAt values si, oi.map (cellAt values),
        toFixed2 (normalizeSuccessRate v), ti.map (cellAt values)⟩
    | none => none

/-- `parseShopifyCSV` of `src/src/components/SessionAnalyzer.tsx:125-187`. -/
def parseShopifyCSV (csvText : Str) : Except ParseError (List ShopifyData) :=
  let lines := splitOnChar '\n' (trimChars csvText)
  if lines.length < 2 then .error .MalformedInput
  else
    let headers := (splitOnChar ',' (lines.headD [])).map
      (fun hh => (trimChars hh).map Char.toLower)
    match headers.findIdx? shopifySessionIdHeader,
        headers.findIdx? shopifySuccessRateHeader with
    | some si, some ri =>
      let data := lines.tail.filterMap
        (shopifyRow si ri (headers.findIdx? shopifyOrderIdHeader)
          (headers.findIdx? timestampHeader))
      if data.isEmpty then .error .EmptyResult else .ok data
    | _, _ => .error (.MissingColumns headers)

/-- Header match for the duration parser's session-id column
(`SessionAnalyzer.tsx:199`). -/
def awsSessionIdHeader (h : Str) : Bool :=
  h = strOf "session_id" || h = strOf "sessionid" || h = strOf "session-id" ||
    (includes h "session" && includes h "id")

/-- Header match for the duration parser's duration column
(`SessionAnalyzer.tsx:203`). -/
def awsSessionLengthHeader (h : Str) : Bool :=
  h = strOf "session_length" || h = strOf "sessionlength" || h = strOf "session-length" ||
    h = strOf "session_duration" || h = strOf "duration" ||
    (includes h "session" && (includes h "length" || includes h "duration"))

/-- Header match for the duration parser's user-id column
(`SessionAnalyzer.tsx:208`). -/
def awsUserIdHeader (h : Str) : Bool :=
  h = strOf "user_id" || h = strOf "userid" || h = strOf "user-id" ||
    (includes h "user" && includes h "id")

/-- One data-row step of `parseAWSCSV` (`SessionAnalyzer.tsx:220-235`):
this plain variant has no timestamp path, stores the parsed duration
unrounded, and filters only on a truthy session id and a non-`NaN`
duration. -/
def awsRow (si li : Nat) (ui ti : Option Nat) (line : Str) : Option AWSData :=
  let values := (splitOnChar ',' line).map (fun v => stripQuotes (trimChars v))
  if values.length < 2 then none
  else
    match jsParseFloat (cellAt values li) with
    | some v =>
      if cellAt values si = [] then none
      else some ⟨cellAt values si, v, ui.map (cellAt values), ti.map (cellAt values)⟩
    | none => none

/-- `parseAWSCSV` of `src/src/components/SessionAnalyzer.tsx:189-242`. -/
def parseAWSCSV (csvText : Str) : Except ParseError (List AWSData) :=
  let lines := splitOnChar '\n' (trimChars csvText)
  if lines.length < 2 then .error .MalformedInput
  else
    let headers := (splitOnChar ',' (lines.headD [])).map
      (fun hh => (trimChars hh).map Char.toLower)
    match headers.findIdx? awsSessionIdHeader,
        headers.findIdx? awsSessionLengthHeader with
    | some si, some li =>
      let data := lines.tail.filterMap
        (awsRow si li (headers.findIdx? awsUserIdHeader)
          (headers.findIdx? timestampHeader))
      if data.isEmpty then .error .EmptyResult else .ok data
    | _, _ => .error (.MissingColumns headers)

namespace Part006

/-- Header match for the diagnostic variant's session-id column
(`src/unnamed/part_006:286`): additionally accepts bare `session` / `id`. -/
def awsSessionIdHeader (h : Str) : Bool :=
  h = strOf "session_id" || h = strOf "sessionid" || h = strOf "session-id" ||
    (includes h "session" && includes h "id") || h = strOf "session" || h = strOf "id"

/-- Header match for the diagnostic variant's duration column
(`src/unnamed/part_006:293`): additionally accepts bare `length` and any
header containing `duration` or `length`. -/
def awsSessionLengthHeader (h : Str) : Bool :=
  h = strOf "session_length" || h = strOf "sessionlength" || h = strOf "session-length" ||
    h = strOf "session_duration" || h = strOf "duration" || h = strOf "length" ||
    (includes h "session" && (includes h "length" || includes h "duration")) ||
    includes h "duration" || includes h "length"

/-- Header match for the start-timestamp column (`src/unnamed/part_006:305`). -/
def startTsHeader (h : Str) : Bool :=
  (includes h "start" && (includes h "timestamp" || includes h "time")) ||
    h = strOf "start_timestamp" || h = strOf "starttime" || h = strOf "start_time" ||
    h = strOf "start" || h = strOf "begin_timestamp" || h = strOf "begin_time"

/-- Header match for the end-timestamp column (`src/unnamed/part_006:310`). -/
def endTsHeader (h : Str) : Bool :=
  (includes h "end" && (includes h "timestamp" || includes h "time")) ||
    h = strOf "end_timestamp" || h = strOf "endtime" || h = strOf "end_time" ||
    h = strOf "end" || h = strOf "finish_timestamp" || h = strOf "finish_time"

/-- Header match for the diagnostic variant's user-id column
(`src/unnamed/part_006:326`): additionally accepts bare `user`. -/
def awsUserIdHeader (h : Str) : Bool :=
  h = strOf "user_id" || h = strOf "userid" || h = strOf "user-id" ||
    (includes h "user" && includes h "id") || h = strOf "user"

/-- The pure-numeric timestamp pattern `^\d+\.?\d*$`
(`src/unnamed/part_006:281`). -/
def numericBody (s : Str) : Bool :=
  let sp := List.span Char.isDigit s
  decide (sp.1 ≠ []) &&
    (decide (sp.2 = []) ||
      (decide (sp.2.head? = some '.') && sp.2.tail.all Char.isDigit))

/-- `startTime.replace(' ', 'T')`: JavaScript `replace` with a string
pattern replaces only the first occurrence. -/
def replaceFirstSpace : Str → Str
  | [] => []
  | c :: t => if c = ' ' then 'T' :: t else c :: replaceFirstSpace t

/-- Timestamp normalization of `src/unnamed/part_006:296-297`: ISO-style
strings keep a literal `T`; otherwise the first space becomes a `T`. -/
def normalizeT (s : Str) : Str := if includes s "T" then s else replaceFirstSpace s

/-- Milliseconds of a date string: the surrounding component calls
`new Date(normalized).getTime()`; calendar parsing is not part of this
repository, so it enters the model as the abstract parameter `pd`
(`none` models an invalid date, i.e. `NaN`). -/
def dateMs (pd : Str → Option ℚ) (s : Str) : Option ℚ := pd (normalizeT s)

/-- The timestamp-difference computation of `src/unnamed/part_006:268-321`:
when both cells are pure-numeric they are Unix epoch values, scaled from
seconds to milliseconds when the start magnitude is below `1e10`; otherwise
both cells are parsed as calendar dates.  The result is
`(endMs - startMs) / 1000` seconds; `none` models the `catch`/skip path. -/
def timestampDuration (pd : Str → Option ℚ) (startStr endStr : Str) : Option ℚ :=
  let msPair : Option (ℚ × ℚ) :=
    match jsParseFloat startStr, jsParseFloat endStr with
    | some sN, some eN =>
      if numericBody startStr && numericBody endStr then
        some (if sN < 10 ^ 10 then (sN * 1000, eN * 1000) else (sN, eN))
      else
        (dateMs pd startStr).bind (fun a => (dateMs pd endStr).map (fun b => (a, b)))
    | _, _ =>
      (dateMs pd startStr).bind (fun a => (dateMs pd endStr).map (fun b => (a, b)))
  msPair.map (fun p => (p.2 - p.1) / 1000)

/-- The duration of one data row of the diagnostic variant's `parseAWSCSV`
(`src/unnamed/part_006:257-321`): from the direct column when one was
resolved, else from the timestamp pair. -/
def rowLength (pd : Str → Option ℚ) (values : List Str)
    (li sti eti : Option Nat) : Option ℚ :=
  match li with
  | some l => jsParseFloat (cellAt values l)
  | none => timestampDuration pd (cellAt values (sti.getD 0)) (cellAt values (eti.getD 0))

/-- One data-row step of the diagnostic variant, continued: the row is kept
only when the session id is truthy and the duration is a number `> 0`, and
the stored value is rounded through `Number(x.toFixed(2))`. -/
def awsRow (pd : Str → Option ℚ) (si : Nat) (li sti eti ui ti : Option Nat)
    (line : Str) : Option AWSData :=
  let values := (splitOnChar ',' line).map (fun v => stripQuotes (trimChars v))
  if values.length < 2 then none
  else
    match rowLength pd values li sti eti with
    | some sl =>
      if cellAt values si = [] ∨ ¬sl > 0 then none
      else some ⟨cellAt values si, toFixed2 sl, ui.map (cellAt values), ti.map (cellAt values)⟩
    | none => none

/-- `parseAWSCSV` of `src/unnamed/part_006:257-338`: resolves a direct
duration column first and searches for a start/end timestamp pair only when
that fails; requires a session id plus either duration source. -/
def parseAWSCSV (pd : Str → Option ℚ) (csvText : Str) : Except ParseError (List AWSData) :=
  let lines := splitOnChar '\n' (trimChars csvText)
  if lines.length < 2 then .error .MalformedInput
  else
    let headers := (splitOnChar ',' (lines.headD [])).map
      (fun hh => (trimChars hh).map Char.toLower)
    let li? := headers.findIdx? awsSessionLengthHeader
    let sti? := if li?.isNone then headers.findIdx? startTsHeader else none
    let eti? := if li?.isNone then headers.findIdx? endTsHeader else none
    match headers.findIdx? awsSessionIdHeader with
    | some si =>
      if li?.isSome || (sti?.isSome && eti?.isSome) then
        let data := lines.tail.filterMap
          (awsRow pd si li? sti? eti?
            (headers.findIdx? awsUserIdHeader)
            (headers.findIdx? timestampHeader))
        if data.isEmpty then .error .EmptyResult else .ok data
      else .error (.MissingColumns headers)
    | none => .error (.MissingColumns headers)

end Part006

/-- The sort order of `fuseData`'s final `sort((a, b) => a.sessionLength - b.sessionLength)`. -/
def byLen (a b : FusedDataPoint) : Prop := a.sessionLength ≤ b.sessionLength

instance : DecidableRel byLen := fun x y =>
  inferInstanceAs (Decidable (x.sessionLength ≤ y.sessionLength))

instance : IsTotal FusedDataPoint byLen := ⟨fun a b => le_total a.sessionLength b.sessionLength⟩

instance : IsTrans FusedDataPoint byLen := ⟨fun _ _ _ h h' => le_trans h h'⟩

/-- Models `fused.sort((a, b) => a.sessionLength - b.sessionLength)`:
`Array.prototype.sort` is a stable sort (ES2019), and a stable sort with
respect to a total preorder is unique, so insertion sort realizes it. -/
def sortByLength (l : List FusedDataPoint) : List FusedDataPoint :=
  List.insertionSort byLen l

/-- The lookup function of the `awsMap` built by
`awsData.forEach(aws => awsMap.set(aws.sessionId, aws))`
(`SessionAnalyzer.tsx:253-254`): each `set` overwrites the previous binding
of the same key. -/
def awsMapLookup (awsData : List AWSData) : Str → Option AWSData :=
  awsData.foldl (fun m a => fun k => if k = a.sessionId then some a else m k) (fun _ => none)

/-- The body of the `shopifyData.forEach` of `fuseData`
(`SessionAnalyzer.tsx:257-267`): the accumulator is the `fused` array
paired with `sessionCounter`; a map hit pushes one record carrying the
current counter value. -/
def fuseStep (lookup : Str → Option AWSData) (acc : List FusedDataPoint × Nat)
    (sh : ShopifyData) : List FusedDataPoint × Nat :=
  match lookup sh.sessionId with
  | some aws => (acc.1 ++ [⟨sh.sessionId, aws.sessionLength, sh.successRate, acc.2⟩],
      acc.2 + 1)
  | none => acc

/-- `fuseData` of `src/src/components/SessionAnalyzer.tsx:244-271`: return
`[]` when either source is empty; otherwise index the duration records in a
map, scan the success records in order pushing one fused record per hit
(numbering them with `sessionCounter` starting at 1), and finally sort by
duration. -/
def fuseData (shopifyData : List ShopifyData) (awsData : List AWSData) : List FusedDataPoint :=
  if shopifyData.length = 0 ∨ awsData.length = 0 then []
  else
    sortByLength (shopifyData.foldl (fuseStep (awsMapLookup awsData)) ([], 1)).1


/-- The inner join as the fuser's scan produces it, before numbering and
sorting: success records in original order, each paired with its map hit. -/
def fuseJoin (shopifyData : List ShopifyData) (awsData : List AWSData) :
    List (ShopifyData × AWSData) :=
  shopifyData.filterMap
    (fun sh => (awsMapLookup awsData sh.sessionId).map (fun aw => (sh, aw)))

/-- Record constructor used when a join hit is emitted, the hit's
1-based scan position attached. -/
def mkFused (p : Nat × (ShopifyData × AWSData)) : FusedDataPoint :=
  ⟨p.2.1.sessionId, p.2.2.sessionLength, p.2.1.successRate, p.1⟩

/-- Modelled from the claim's description of the fusion algorithm: an index
on `DurationRecord.sessionId`, last-write-wins on duplicate ids, i.e. the
last record of the list with the wanted id. -/
def durationIndex (awsData : List AWSData) (k : Str) : Option AWSData :=
  awsData.reverse.find? (fun a => a.sessionId == k)

/-- Modelled from the claim's description of the fusion algorithm: scan the
success records in their original order and emit a pair on each index hit
(the inner join, dropping unmatched ids on both sides). -/
def joinSpec (shopifyData : List ShopifyData) (awsData : List AWSData) :
    List (ShopifyData × AWSData) :=
  shopifyData.filterMap (fun sh => (durationIndex awsData sh.sessionId).map (fun aw => (sh, aw)))

/-- Modelled from the claim's description of the fusion algorithm: the
stable ascending-by-duration sort of the inner join, each hit fusing the
success side's rate with the duration side's length, sequence numbers
assigned in join-output order starting at 1. -/
def fuseSpec (shopifyData : List ShopifyData) (awsData : List AWSData) : List FusedDataPoint :=
  sortByLength (((joinSpec shopifyData awsData).enumFrom 1).map mkFused)

/-- The statistics summary computed by `generateFusionReport`
(`SessionAnalyzer.tsx:273-307`).  The component formats these numbers with
`toFixed(1)` into display strings; that presentation step carries no
further data flow and is omitted, the summary is modelled at full
precision. -/
structure FusionStats where
  totalSessions : Nat
  matchedSessions : Nat
  inflectionPoint : ℚ
  earlySuccessRate : ℚ
  lateSuccessRate : ℚ
deriving DecidableEq

/-- `generateFusionReport` of `SessionAnalyzer.tsx:273-307`: `none` models
the early-return message paths (a source still empty, or an empty join);
otherwise the summary over `fused = fuseData(...)`: the split index is
`floor(N * 0.65)`, the inflection point is `fused[split]?.sessionLength || 0`,
and the early/late rates are the slice averages guarded to `0` on empty
slices. -/
def generateFusionReport (shopifyData : List ShopifyData) (awsData : List AWSData) :
    Option FusionStats :=
  if shopifyData.length = 0 ∨ awsData.length = 0 then none
  else
    let fused := fuseData shopifyData awsData
    if fused.length = 0 then none
    else
      let split : Nat := (⌊(fused.length : ℚ) * (65 / 100)⌋).toNat
      let earlyData := fused.take split
      let lateData := fused.drop split
      some
        { totalSessions := max shopifyData.length awsData.length
          matchedSessions := fused.length
          inflectionPoint := ((fused.get? split).map (fun r => r.sessionLength)).getD 0
          earlySuccessRate := if earlyData.length > 0 then
              (earlyData.foldl (fun sum p => sum + p.successRate) 0) / earlyData.length else 0
          lateSuccessRate := if lateData.length > 0 then
              (lateData.foldl (fun sum p => sum + p.successRate) 0) / lateData.length else 0 }

/-- Modelled from the claim's wording: the mean of a list of rates,
reported as `0` when the slice is empty. -/
def specMean (l : List ℚ) : ℚ :=
  if l = [] then 0 else l.sum / l.length

/-- One row of the exported CSV (`exportData`, `SessionAnalyzer.tsx:418`). -/
def exportRow (r : FusedDataPoint) : Str :=
  r.sessionId ++ ',' :: natDigits r.sessionNumber ++ ',' :: ratToString r.sessionLength ++
    ',' :: ratToString r.successRate

/-- `lines.join('\n')`. -/
def joinLines : List Str → Str
  | [] => []
  | [l] => l
  | l :: l' :: ls => l ++ '\n' :: joinLines (l' :: ls)

/-- `exportData` of `SessionAnalyzer.tsx:415-430`, up to the browser
download mechanics: the produced CSV text, a fixed header line followed by
one line per fused record in current order. -/
def exportData (fusedData : List FusedDataPoint) : Str :=
  joinLines (strOf "Session ID,Session Number,Session Length,Success Rate" ::
    fusedData.map exportRow)

/-- A cell value that survives the CSV round trip untouched: nonempty and
free of whitespace, separators and quotes. -/
def csvSafe (s : Str) : Bool :=
  decide (s ≠ []) && s.all (fun c => !isWS c && decide (c ≠ ',') && decide (c ≠ '"') && decide (c ≠ '\''))

theorem dropWhile_eq_self_of_all {p : Char → Bool} {s : Str}
    (h : ∀ c ∈ s, p c = false) : List.dropWhile p s = s := by
  cases s with
  | nil => rfl
  | cons c t => simp [List.dropWhile, h c (by simp)]

theorem dropWhile_append_of_front {p : Char → Bool} {v u : Str} (hv : v ≠ [])
    (h : ∀ c ∈ v, p c = false) : List.dropWhile p (v ++ u) = v ++ u := by
  cases v with
  | nil => exact absurd rfl hv
  | cons c t => simp [List.dropWhile, h c (by simp)]

theorem trimChars_eq_self_of_all {s : Str} (h : ∀ c ∈ s, isWS c = false) :
    trimChars s = s := by
  unfold trimChars trimLeft
  rw [show List.dropWhile isWS s.reverse = s.reverse from
      dropWhile_eq_self_of_all (fun c hc => h c (List.mem_reverse.mp hc)),
    List.reverse_reverse, dropWhile_eq_self_of_all h]

theorem trimChars_shape {c : Char} {mid v : Str} (hc : isWS c = false) (hv : v ≠ [])
    (hva : ∀ x ∈ v, isWS x = false) : trimChars (c :: mid ++ v) = c :: mid ++ v := by
  unfold trimChars trimLeft
  rw [show (c :: mid ++ v).reverse = v.reverse ++ (c :: mid).reverse by simp]
  rw [dropWhile_append_of_front (by simpa using hv)
    (by intro x hx; exact hva x (List.mem_reverse.mp hx))]
  rw [show (v.reverse ++ (c :: mid).reverse).reverse = c :: mid ++ v by simp]
  simp [List.dropWhile, hc]

theorem splitOnChar_ne_nil (c : Char) (s : Str) : splitOnChar c s ≠ [] := by
  cases s with
  | nil => simp [splitOnChar]
  | cons x xs =>
    unfold splitOnChar
    match h : splitOnChar c xs with
    | [] => simp
    | s' :: ss => by_cases hx : x = c <;> simp [hx]

theorem splitOnChar_of_not_mem {c : Char} {s : Str} (h : c ∉ s) :
    splitOnChar c s = [s] := by
  induction s with
  | nil => rfl
  | cons x xs ih =>
    have hx : x ≠ c := fun he => h (he ▸ List.mem_cons_self x xs)
    have hxs : c ∉ xs := fun hm => h (List.mem_cons_of_mem x hm)
    unfold splitOnChar
    rw [ih hxs]
    simp [hx]

theorem splitOnChar_append {c : Char} {xs : Str} (ys : Str) (h : c ∉ xs) :
    splitOnChar c (xs ++ c :: ys) = xs :: splitOnChar c ys := by
  induction xs with
  | nil =>
    show splitOnChar c (c :: ys) = [] :: splitOnChar c ys
    match hy : splitOnChar c ys with
    | [] => exact absurd hy (splitOnChar_ne_nil c ys)
    | s' :: ss =>
      conv_lhs => rw [splitOnChar, hy]
      simp
  | cons x xs ih =>
    have hx : x ≠ c := fun he => h (he ▸ List.mem_cons_self x xs)
    have hxs : c ∉ xs := fun hm => h (List.mem_cons_of_mem x hm)
    show splitOnChar c (x :: (xs ++ c :: ys)) = (x :: xs) :: splitOnChar c ys
    conv_lhs => rw [splitOnChar, ih hxs]
    simp [hx]

theorem csvSafe_all {s : Str} (h : csvSafe s = true) :
    ∀ c ∈ s, isWS c = false ∧ c ≠ ',' ∧ c ≠ '"' ∧ c ≠ '\'' := by
  intro c hc
  simp only [csvSafe, Bool.and_eq_true, decide_eq_true_eq, List.all_eq_true] at h
  have hcp := h.2 c hc
  simp only [Bool.and_eq_true, Bool.not_eq_true', decide_eq_true_eq] at hcp
  exact ⟨hcp.1.1.1, hcp.1.1.2, hcp.1.2, hcp.2⟩

theorem csvSafe_not_ws {s : Str} (h : csvSafe s = true) : ∀ c ∈ s, isWS c = false :=
  fun c hc => (csvSafe_all h c hc).1

theorem csvSafe_ne_nil {s : Str} (h : csvSafe s = true) : s ≠ [] := by
  simp only [csvSafe, Bool.and_eq_true, decide_eq_true_eq] at h
  exact h.1

theorem csvSafe_not_mem_comma {s : Str} (h : csvSafe s = true) : ',' ∉ s :=
  fun hm => (csvSafe_all h ',' hm).2.1 rfl

theorem csvSafe_not_mem_nl {s : Str} (h : csvSafe s = true) : '\n' ∉ s := by
  intro hm
  have := csvSafe_not_ws h '\n' hm
  simp [isWS] at this

theorem csvSafe_trim {s : Str} (h : csvSafe s = true) : trimChars s = s :=
  trimChars_eq_self_of_all (csvSafe_not_ws h)

theorem stripQuotes_eq_self_of_all {s : Str}
    (h : ∀ c ∈ s, c ≠ '"' ∧ c ≠ '\'') : stripQuotes s = s := by
  cases s with
  | nil => rfl
  | cons c t =>
    have hc := h c (List.mem_cons_self c t)
    simp only [stripQuotes]
    rw [show (if isQuote c = true then t else c :: t) = c :: t from
      if_neg (by simp [isQuote, hc.1, hc.2])]
    match hr : (c :: t).reverse with
    | [] => exact absurd hr (by simp)
    | d :: u =>
      have hd : d ∈ c :: t := List.mem_reverse.mp (hr ▸ List.mem_cons_self d u)
      have hdq := h d hd
      show (if isQuote d = true then u.reverse else (d :: u).reverse) = c :: t
      rw [if_neg (by simp [isQuote, hdq.1, hdq.2]), ← hr, List.reverse_reverse]

theorem csvSafe_stripQuotes {s : Str} (h : csvSafe s = true) : stripQuotes s = s :=
  stripQuotes_eq_self_of_all (fun c hc => (csvSafe_all h c hc).2.2)

theorem digitChar_spec {d : Nat} (h : d < 10) :
    (digitChar d).isDigit = true ∧ digitVal (digitChar d) = d := by
  interval_cases d <;> exact ⟨by decide, by decide⟩

theorem isDigit_not_ws {c : Char} (h : c.isDigit = true) : isWS c = false := by
  simp only [isWS, Bool.or_eq_false_iff, decide_eq_false_iff_not]
  refine ⟨⟨⟨?_, ?_⟩, ?_⟩, ?_⟩ <;> rintro rfl <;> simp [Char.isDigit] at h

theorem isDigit_props {c : Char} (h : c.isDigit = true) :
    c ≠ '-' ∧ c ≠ '+' ∧ c ≠ '.' ∧ c ≠ ',' ∧ c ≠ '\n' ∧ c ≠ '"' ∧ c ≠ '\'' := by
  refine ⟨?_, ?_, ?_, ?_, ?_, ?_, ?_⟩ <;> rintro rfl <;> simp [Char.isDigit] at h

theorem natDigits_ne_nil (n : Nat) : natDigits n ≠ [] := by
  rw [natDigits]
  by_cases h : n < 10 <;> simp [h]

theorem natDigits_all_digit (n : Nat) : ∀ c ∈ natDigits n, c.isDigit = true := by
  induction n using Nat.strong_induction_on with
  | _ n ih =>
    rw [natDigits]
    by_cases h : n < 10
    · simpa [h] using (digitChar_spec h).1
    · simp only [h, dif_neg, not_false_iff]
      intro c hc
      rcases List.mem_append.mp hc with hc | hc
      · exact ih (n / 10) (Nat.div_lt_self (by omega) (by decide)) c hc
      · simp only [List.mem_singleton] at hc
        exact hc ▸ (digitChar_spec (Nat.mod_lt n (by decide))).1

theorem digitsToNat_append_one (ds : List Char) (c : Char) :
    digitsToNat (ds ++ [c]) = 10 * digitsToNat ds + digitVal c := by
  simp [digitsToNat, List.foldl_append]
  ring

theorem digitsToNat_natDigits (n : Nat) : digitsToNat (natDigits n) = n := by
  induction n using Nat.strong_induction_on with
  | _ n ih =>
    rw [natDigits]
    by_cases h : n < 10
    · simp only [h, dif_pos]
      show 0 * 10 + digitVal (digitChar n) = n
      simpa using (digitChar_spec h).2
    · simp only [h, dif_neg, not_false_iff]
      rw [digitsToNat_append_one, ih (n / 10) (Nat.div_lt_self (by omega) (by decide)),
        (digitChar_spec (Nat.mod_lt n (by decide))).2]
      omega

theorem natDigits_length_le {k n : Nat} (hk : 1 ≤ k) (h : n < 10 ^ k) :
    (natDigits n).length ≤ k := by
  induction n using Nat.strong_induction_on generalizing k with
  | _ n ih =>
    rw [natDigits]
    by_cases hn : n < 10
    · simp only [hn, dif_pos, List.length_singleton]
      omega
    · simp only [hn, dif_neg, not_false_iff, List.length_append, List.length_singleton]
      have hpow : (10 : ℕ) ^ (k - 1) * 10 = 10 ^ k := by
        conv_rhs => rw [show k = (k - 1) + 1 by omega]
        rw [pow_succ]
      rw [← hpow] at h
      have hdiv : n / 10 < 10 ^ (k - 1) := by omega
      have hk1 : 1 ≤ k - 1 := by
        rcases Nat.lt_or_ge k 2 with hklt | hkge
        · interval_cases k
          simp at hdiv
          omega
        · omega
      have := ih (n / 10) (Nat.div_lt_self (by omega) (by decide)) hk1 hdiv
      omega

theorem digitsToNat_zeros (z : Nat) (ds : List Char) :
    digitsToNat (List.replicate z '0' ++ ds) = digitsToNat ds := by
  induction z with
  | zero => rfl
  | succ z ih =>
    show (List.replicate z '0' ++ ds).foldl (fun a c => a * 10 + digitVal c)
      (0 * 10 + digitVal '0') = digitsToNat ds
    rw [show 0 * 10 + digitVal '0' = 0 by decide]
    exact ih

theorem span_digits_append {A r : Str} (hA : ∀ c ∈ A, c.isDigit = true)
    (hr : ∀ c ∈ r.head?, c.isDigit = false) :
    List.span Char.isDigit (A ++ r) = (A, r) := by
  rw [List.span_eq_take_drop]
  induction A with
  | nil =>
    simp only [List.nil_append]
    cases r with
    | nil => rfl
    | cons c t =>
      have hc := hr c (by simp)
      simp [List.takeWhile_cons, List.dropWhile_cons, hc]
  | cons a A ih =>
    have ha := hA a (List.mem_cons_self a A)
    have ih' := ih (fun c hc => hA c (List.mem_cons_of_mem a hc))
    simp only [List.cons_append, List.takeWhile_cons, List.dropWhile_cons, ha,
      if_true] at *
    rw [Prod.mk.injEq] at ih'
    simp [ih'.1, ih'.2]

theorem exists_le_dvd_ten_pow {d K : Nat} (hd : 0 < d) (h : d ∣ 10 ^ K) :
    ∃ k ≤ d, d ∣ 10 ^ k := by
  rw [show (10 : ℕ) = 2 * 5 by norm_num, mul_pow] at h
  obtain ⟨a, b, ha, hb, hab⟩ := Nat.dvd_mul.mp h
  obtain ⟨i, hiK, rfl⟩ := (Nat.dvd_prime_pow Nat.prime_two).mp ha
  obtain ⟨j, hjK, rfl⟩ := (Nat.dvd_prime_pow (by norm_num : Nat.Prime 5)).mp hb
  subst hab
  refine ⟨max i j, ?_, ?_⟩
  · have hi : i < 2 ^ i := Nat.lt_two_pow i
    have hj : j < 5 ^ j := lt_of_lt_of_le (Nat.lt_two_pow j)
      (Nat.pow_le_pow_left (by norm_num) j)
    have h2 : 2 ^ i ≤ 2 ^ i * 5 ^ j := Nat.le_mul_of_pos_right _ (pow_pos (by norm_num) j)
    have h5 : 5 ^ j ≤ 2 ^ i * 5 ^ j := Nat.le_mul_of_pos_left _ (pow_pos (by norm_num) i)
    omega
  · rw [show (10 : ℕ) = 2 * 5 by norm_num, mul_pow]
    exact Nat.mul_dvd_mul (pow_dvd_pow 2 (le_max_left i j)) (pow_dvd_pow 5 (le_max_right i j))

theorem decPlaces_dvd {q : ℚ} (h : ∃ K, q.den ∣ 10 ^ K) : q.den ∣ 10 ^ decPlaces q := by
  obtain ⟨K, hK⟩ := h
  obtain ⟨k, hkle, hdvd⟩ := exists_le_dvd_ten_pow q.den_pos hK
  have hs : ((List.range (q.den + 1)).find? (fun k => decide (q.den ∣ 10 ^ k))).isSome := by
    rw [List.find?_isSome]
    exact ⟨k, List.mem_range.mpr (by omega), by simpa using hdvd⟩
  obtain ⟨k', hk'⟩ := Option.isSome_iff_exists.mp hs
  have hp := List.find?_some hk'
  simp only [decide_eq_true_eq] at hp
  simpa [decPlaces, hk'] using hp

theorem mul_pow_eq_num_mul {q : ℚ} {k : Nat} (hdvd : q.den ∣ 10 ^ k) :
    q * 10 ^ k = ((q.num * ((10 ^ k / q.den : ℕ) : ℤ) : ℤ) : ℚ) := by
  obtain ⟨c, hc⟩ := hdvd
  have hcdiv : (10 ^ k / q.den : ℕ) = c := by
    rw [hc, Nat.mul_div_cancel_left c q.den_pos]
  rw [hcdiv]
  have hcast : (10 : ℚ) ^ k = ((q.den : ℚ)) * (c : ℚ) := by exact_mod_cast hc
  rw [hcast, ← mul_assoc, Rat.mul_den_eq_num]
  push_cast
  ring

theorem scaled_num_eq {q : ℚ} {k : Nat} (hq : 0 ≤ q) (hdvd : q.den ∣ 10 ^ k) :
    q * 10 ^ k = (((q * 10 ^ k).num.toNat : ℕ) : ℚ) := by
  have h1 := mul_pow_eq_num_mul hdvd
  have hnn : 0 ≤ q * 10 ^ k := mul_nonneg hq (by positivity)
  have hnum : 0 ≤ (q * 10 ^ k).num := Rat.num_nonneg.mpr hnn
  have hint : (((q * 10 ^ k).num : ℤ) : ℚ) = q * 10 ^ k := by
    rw [h1, Rat.num_intCast]
  conv_lhs => rw [← hint]
  exact_mod_cast (Int.toNat_of_nonneg hnum).symm

theorem natDigits_head (m : Nat) :
    ∃ c t, natDigits m = c :: t ∧ c.isDigit = true := by
  match hm : natDigits m with
  | [] => exact absurd hm (natDigits_ne_nil m)
  | c :: t =>
    exact ⟨c, t, rfl, natDigits_all_digit m c (hm ▸ List.mem_cons_self c t)⟩

theorem parseUnsigned_natDigits (m : Nat) : parseUnsigned (natDigits m) = some (m : ℚ) := by
  have hsp : List.span Char.isDigit (natDigits m) = (natDigits m, []) := by
    have := span_digits_append (A := natDigits m) (r := [])
      (natDigits_all_digit m) (by simp)
    simpa using this
  simp only [parseUnsigned, hsp]
  rw [if_neg (by simp [natDigits_ne_nil m])]
  simp [digitsToNat_natDigits, show digitsToNat [] = 0 from rfl]

theorem parseUnsigned_frac (ip fp k : Nat) (hk : k ≠ 0) (hfp : fp < 10 ^ k) :
    parseUnsigned (natDigits ip ++ '.' ::
      (List.replicate (k - (natDigits fp).length) '0' ++ natDigits fp)) =
    some ((ip : ℚ) + (fp : ℚ) / 10 ^ k) := by
  set pad := List.replicate (k - (natDigits fp).length) '0' ++ natDigits fp with hpaddef
  have hpad_digits : ∀ c ∈ pad, c.isDigit = true := by
    intro c hc
    rcases List.mem_append.mp hc with hc | hc
    · rw [List.eq_of_mem_replicate hc]; decide
    · exact natDigits_all_digit fp c hc
  have hlen : pad.length = k := by
    have := natDigits_length_le (show 1 ≤ k by omega) hfp
    rw [hpaddef]
    simp only [List.length_append, List.length_replicate]
    omega
  have hsp1 : List.span Char.isDigit (natDigits ip ++ '.' :: pad) =
      (natDigits ip, '.' :: pad) :=
    span_digits_append (natDigits_all_digit ip)
      (by intro c hc; simp only [List.head?_cons, Option.mem_def, Option.some.injEq] at hc
          subst hc; decide)
  have hsp2 : List.span Char.isDigit pad = (pad, []) := by
    have := span_digits_append (A := pad) (r := []) hpad_digits (by simp)
    simpa using this
  have hdpad : digitsToNat pad = fp := by
    rw [hpaddef, digitsToNat_zeros, digitsToNat_natDigits]
  simp only [parseUnsigned, hsp1, hsp2]
  rw [if_neg (by simp [natDigits_ne_nil ip])]
  simp [digitsToNat_natDigits, hdpad, hlen]

theorem parseUnsigned_ratToStrNN {q : ℚ} (hq : 0 ≤ q) (h : ∃ K, q.den ∣ 10 ^ K) :
    parseUnsigned (ratToStrNN q) = some q := by
  have hdvd := decPlaces_dvd h
  have hqn : q * 10 ^ decPlaces q = (((q * 10 ^ decPlaces q).num.toNat : ℕ) : ℚ) :=
    scaled_num_eq hq hdvd
  set k := decPlaces q with hkdef
  set n := (q * 10 ^ k).num.toNat with hndef
  have hq_eq : q = (n : ℚ) / 10 ^ k := by
    have hne : ((10 : ℚ) ^ k) ≠ 0 := by positivity
    field_simp
    exact hqn
  by_cases hk : k = 0
  · have hstr : ratToStrNN q = natDigits n := by
      rw [ratToStrNN, ← hkdef, ← hndef, if_pos hk]
    rw [hstr, parseUnsigned_natDigits, hq_eq, hk]
    norm_num
  · have hstr : ratToStrNN q = natDigits (n / 10 ^ k) ++ '.' ::
        (List.replicate (k - (natDigits (n % 10 ^ k)).length) '0' ++ natDigits (n % 10 ^ k)) := by
      rw [ratToStrNN, ← hkdef, ← hndef, if_neg hk]
    rw [hstr, parseUnsigned_frac _ _ k hk (Nat.mod_lt n (by positivity))]
    congr 1
    rw [hq_eq]
    have hsplit : (10 : ℕ) ^ k * (n / 10 ^ k) + n % 10 ^ k = n := Nat.div_add_mod n (10 ^ k)
    have hcast : ((10 : ℚ) ^ k) * ((n / 10 ^ k : ℕ) : ℚ) + ((n % 10 ^ k : ℕ) : ℚ) = (n : ℚ) := by
      exact_mod_cast hsplit
    have hne : ((10 : ℚ) ^ k) ≠ 0 := by positivity
    field_simp
    linarith [hcast]

theorem ratToStrNN_decomp (q : ℚ) : ∃ m r, ratToStrNN q = natDigits m ++ r := by
  by_cases hk : decPlaces q = 0
  · exact ⟨_, [], by rw [ratToStrNN, if_pos hk, List.append_nil]⟩
  · exact ⟨_, _, by rw [ratToStrNN, if_neg hk]⟩

theorem jsParseFloat_ratToString {q : ℚ} (h : ∃ K, q.den ∣ 10 ^ K) :
    jsParseFloat (ratToString q) = some q := by
  by_cases hq : q < 0
  · rw [ratToString, if_pos hq]
    have hnn : (0 : ℚ) ≤ -q := by linarith
    have hr : parseUnsigned (ratToStrNN (-q)) = some (-q) :=
      parseUnsigned_ratToStrNN hnn (by rw [Rat.neg_den]; exact h)
    have ht : trimLeft ('-' :: ratToStrNN (-q)) = '-' :: ratToStrNN (-q) := by
      rw [trimLeft, List.dropWhile_cons, if_neg (by simp [isWS])]
    rw [jsParseFloat, ht]
    simp [hr]
  · push_neg at hq
    rw [ratToString, if_neg (not_lt.mpr hq)]
    obtain ⟨m, r, hmr⟩ := ratToStrNN_decomp q
    obtain ⟨c, t, hct, hd⟩ := natDigits_head m
    have hcons : ratToStrNN q = c :: (t ++ r) := by rw [hmr, hct]; rfl
    rw [hcons]
    have hprop := isDigit_props hd
    have ht : trimLeft (c :: (t ++ r)) = c :: (t ++ r) := by
      rw [trimLeft, List.dropWhile_cons, if_neg (by simp [isDigit_not_ws hd])]
    rw [jsParseFloat, ht]
    show (if c = '-' then (parseUnsigned (t ++ r)).map (fun x => -x)
      else if c = '+' then parseUnsigned (t ++ r) else parseUnsigned (c :: (t ++ r))) = some q
    rw [if_neg hprop.1, if_neg hprop.2.1, ← hcons, parseUnsigned_ratToStrNN hq h]

theorem trimChars_eq_self_of_ends {s : Str} (h1 : ∀ c ∈ s.head?, isWS c = false)
    (h2 : ∀ c ∈ s.getLast?, isWS c = false) : trimChars s = s := by
  cases s with
  | nil => rfl
  | cons c t =>
    unfold trimChars trimLeft
    have hrr : List.dropWhile isWS (c :: t).reverse = (c :: t).reverse := by
      match hr : (c :: t).reverse with
      | [] => simp at hr
      | d :: u =>
        have hd : (c :: t).getLast? = some d := by
          rw [← List.head?_reverse, hr]
          rfl
        rw [List.dropWhile_cons, if_neg (by simp [h2 d (by simp [hd])])]
    rw [hrr, List.reverse_reverse, List.dropWhile_cons,
      if_neg (by simp [h1 c (by simp)])]

theorem getLast?_mem_of {α : Type} {l : List α} {a : α} (h : l.getLast? = some a) :
    a ∈ l := by
  cases l with
  | nil => simp at h
  | cons c t => exact List.mem_of_mem_getLast? (by simp [h])

theorem csvSafe_head_ws {s : Str} (h : csvSafe s = true) :
    ∀ c ∈ s.head?, isWS c = false := by
  intro c hc
  exact csvSafe_not_ws h c (List.mem_of_mem_head? hc)

theorem csvSafe_last_ws {s : Str} (h : csvSafe s = true) :
    ∀ c ∈ s.getLast?, isWS c = false := by
  intro c hc
  exact csvSafe_not_ws h c (getLast?_mem_of (by simpa using hc))

/-- Character classification of the serialized number strings. -/
theorem ratToStrNN_chars (q : ℚ) :
    ∀ c ∈ ratToStrNN q, c.isDigit = true ∨ c = '.' := by
  intro c hc
  rw [ratToStrNN] at hc
  by_cases hk : decPlaces q = 0
  · rw [if_pos hk] at hc
    exact Or.inl (natDigits_all_digit _ c hc)
  · rw [if_neg hk] at hc
    rcases List.mem_append.mp hc with hc | hc
    · exact Or.inl (natDigits_all_digit _ c hc)
    · rcases List.mem_cons.mp hc with rfl | hc
      · exact Or.inr rfl
      · rcases List.mem_append.mp hc with hc | hc
        · rw [List.eq_of_mem_replicate hc]
          exact Or.inl (by decide)
        · exact Or.inl (natDigits_all_digit _ c hc)

theorem ratToString_chars (q : ℚ) :
    ∀ c ∈ ratToString q, c.isDigit = true ∨ c = '.' ∨ c = '-' := by
  intro c hc
  rw [ratToString] at hc
  by_cases hq : q < 0
  · rw [if_pos hq] at hc
    rcases List.mem_cons.mp hc with rfl | hc
    · exact Or.inr (Or.inr rfl)
    · rcases ratToStrNN_chars (-q) c hc with hd | hd
      · exact Or.inl hd
      · exact Or.inr (Or.inl hd)
  · rw [if_neg hq] at hc
    rcases ratToStrNN_chars q c hc with hd | hd
    · exact Or.inl hd
    · exact Or.inr (Or.inl hd)

/-- A number-shaped character is inert in the CSV machinery. -/
theorem numChar_props {c : Char} (h : c.isDigit = true ∨ c = '.' ∨ c = '-') :
    isWS c = false ∧ c ≠ ',' ∧ c ≠ '\n' ∧ c ≠ '"' ∧ c ≠ '\'' := by
  rcases h with h | h | h
  · have hp := isDigit_props h
    exact ⟨isDigit_not_ws h, hp.2.2.2.1, hp.2.2.2.2.1, hp.2.2.2.2.2.1, hp.2.2.2.2.2.2⟩
  · subst h; refine ⟨by decide, by decide, by decide, by decide, by decide⟩
  · subst h; refine ⟨by decide, by decide, by decide, by decide, by decide⟩

theorem ratToString_ne_nil (q : ℚ) : ratToString q ≠ [] := by
  rw [ratToString]
  obtain ⟨m, r, hmr⟩ := ratToStrNN_decomp q
  by_cases hq : q < 0
  · simp [hq]
  · rw [if_neg hq, hmr]
    obtain ⟨c, t, hct, _⟩ := natDigits_head m
    simp [hct]

theorem toFixed2_eq_self {q : ℚ} (h : (q * 100).den = 1) : toFixed2 q = q := by
  have hz : ((q * 100).num : ℚ) = q * 100 := (Rat.den_eq_one_iff _).mp h
  by_cases hq : q < 0
  · rw [toFixed2, if_pos hq]
    have : -q * 100 + 1 / 2 = ((-(q * 100).num : ℤ) : ℚ) + 1 / 2 := by
      push_cast
      rw [hz]
      ring
    rw [this, Int.floor_int_add, show ⌊(1 : ℚ) / 2⌋ = 0 by norm_num]
    push_cast
    rw [hz]
    ring
  · rw [toFixed2, if_neg hq]
    have : q * 100 + 1 / 2 = (((q * 100).num : ℤ) : ℚ) + 1 / 2 := by
      rw [hz]
    rw [this, Int.floor_int_add, show ⌊(1 : ℚ) / 2⌋ = 0 by norm_num]
    push_cast
    rw [hz]
    ring

theorem toFixed2_nonneg {q : ℚ} (h : 0 ≤ q) : 0 ≤ toFixed2 q := by
  rw [toFixed2, if_neg (not_lt.mpr h)]
  have hfl : (0 : ℤ) ≤ ⌊q * 100 + 1 / 2⌋ := Int.le_floor.mpr (by push_cast; linarith)
  have hq : (0 : ℚ) ≤ (⌊q * 100 + 1 / 2⌋ : ℚ) := by exact_mod_cast hfl
  linarith

theorem toFixed2_le_100 {q : ℚ} (h0 : 0 ≤ q) (h : q ≤ 100) : toFixed2 q ≤ 100 := by
  rw [toFixed2, if_neg (not_lt.mpr h0)]
  have hfl : ⌊q * 100 + 1 / 2⌋ ≤ ⌊(10000 : ℚ) + 1 / 2⌋ := Int.floor_le_floor (by linarith)
  have h2 : ⌊(10000 : ℚ) + 1 / 2⌋ = 10000 := by norm_num
  have hle : (⌊q * 100 + 1 / 2⌋ : ℚ) ≤ 10000 := by exact_mod_cast h2 ▸ hfl
  linarith

theorem getLast?_append_right {A B : Str} (hB : B ≠ []) :
    (A ++ B).getLast? = B.getLast? := by
  obtain ⟨d, hd⟩ := Option.isSome_iff_exists.mp (List.getLast?_isSome.mpr hB)
  rw [List.getLast?_append, hd]
  rfl

theorem csv_two_lines {hdr row : Str} (hdrne : hdr ≠ []) (hh : '\n' ∉ hdr)
    (hhead : ∀ c ∈ hdr.head?, isWS c = false) (hrow : '\n' ∉ row)
    (hrownil : row ≠ []) (hlast : ∀ c ∈ row.getLast?, isWS c = false) :
    splitOnChar '\n' (trimChars (hdr ++ '\n' :: row)) = [hdr, row] := by
  have htrim : trimChars (hdr ++ '\n' :: row) = hdr ++ '\n' :: row := by
    apply trimChars_eq_self_of_ends
    · intro c hc
      cases hdr with
      | nil => exact absurd rfl hdrne
      | cons d t =>
        simp only [List.cons_append, List.head?_cons, Option.mem_def,
          Option.some.injEq] at hc
        subst hc
        exact hhead d (by simp)
    · intro c hc
      rw [show hdr ++ '\n' :: row = hdr ++ ['\n'] ++ row by simp,
        getLast?_append_right hrownil] at hc
      exact hlast c hc
  rw [htrim, splitOnChar_append row hh, splitOnChar_of_not_mem hrow]

theorem cells_pair {sid rs : Str} (hsid : csvSafe sid = true) (hrs : csvSafe rs = true) :
    (splitOnChar ',' (sid ++ ',' :: rs)).map (fun v => stripQuotes (trimChars v)) =
      [sid, rs] := by
  rw [splitOnChar_append rs (csvSafe_not_mem_comma hsid),
    splitOnChar_of_not_mem (csvSafe_not_mem_comma hrs)]
  simp [csvSafe_trim hsid, csvSafe_trim hrs, csvSafe_stripQuotes hsid,
    csvSafe_stripQuotes hrs]

theorem row_not_mem_nl {sid rs : Str} (hsid : csvSafe sid = true)
    (hrs : csvSafe rs = true) : '\n' ∉ sid ++ ',' :: rs := by
  intro hm
  rcases List.mem_append.mp hm with hm | hm
  · exact csvSafe_not_mem_nl hsid hm
  · rcases List.mem_cons.mp hm with hm | hm
    · simp at hm
    · exact csvSafe_not_mem_nl hrs hm

theorem row_getLast_ws {sid rs : Str} (hrs : csvSafe rs = true) :
    ∀ c ∈ (sid ++ ',' :: rs).getLast?, isWS c = false := by
  intro c hc
  rw [show sid ++ ',' :: rs = sid ++ [','] ++ rs by simp,
    getLast?_append_right (csvSafe_ne_nil hrs)] at hc
  exact csvSafe_last_ws hrs c hc

theorem shopifyRow_pair {sid rs : Str} {v : ℚ} (hsid : csvSafe sid = true)
    (hrs : csvSafe rs = true) (hv : jsParseFloat rs = some v) :
    shopifyRow 0 1 none none (sid ++ ',' :: rs) =
      some ⟨sid, none, toFixed2 (normalizeSuccessRate v), none⟩ := by
  simp only [shopifyRow, cells_pair hsid hrs]
  rw [if_neg (by norm_num)]
  rw [show cellAt [sid, rs] 1 = rs from rfl, show cellAt [sid, rs] 0 = sid from rfl, hv]
  simp [csvSafe_ne_nil hsid]

theorem awsRow_pair {sid rs : Str} {v : ℚ} (hsid : csvSafe sid = true)
    (hrs : csvSafe rs = true) (hv : jsParseFloat rs = some v) :
    awsRow 0 1 none none (sid ++ ',' :: rs) = some ⟨sid, v, none, none⟩ := by
  simp only [awsRow, cells_pair hsid hrs]
  rw [if_neg (by norm_num)]
  rw [show cellAt [sid, rs] 1 = rs from rfl, show cellAt [sid, rs] 0 = sid from rfl, hv]
  simp [csvSafe_ne_nil hsid]

theorem parseShopifyCSV_one_row {sid rs : Str} {v : ℚ} (hsid : csvSafe sid = true)
    (hrs : csvSafe rs = true) (hv : jsParseFloat rs = some v) :
    parseShopifyCSV (strOf "session_id,success_rate" ++ '\n' :: (sid ++ ',' :: rs)) =
      .ok [⟨sid, none, toFixed2 (normalizeSuccessRate v), none⟩] := by
  have hlines := @csv_two_lines (strOf "session_id,success_rate")
    (sid ++ ',' :: rs) (by decide) (by decide)
    (by intro c hc; simp only [Option.mem_def] at hc
        rw [show (strOf "session_id,success_rate").head? = some 's' from rfl] at hc
        cases hc; decide)
    (row_not_mem_nl hsid hrs)
    (by simp [csvSafe_ne_nil hsid])
    (row_getLast_ws hrs)
  simp only [parseShopifyCSV, hlines]
  rw [if_neg (by norm_num)]
  rw [show ([strOf "session_id,success_rate", sid ++ ',' :: rs].headD [] : Str) =
    strOf "session_id,success_rate" from rfl]
  rw [show ((splitOnChar ',' (strOf "session_id,success_rate")).map
      (fun hh => (trimChars hh).map Char.toLower)).findIdx? shopifySessionIdHeader =
      some 0 from by decide]
  rw [show ((splitOnChar ',' (strOf "session_id,success_rate")).map
      (fun hh => (trimChars hh).map Char.toLower)).findIdx? shopifySuccessRateHeader =
      some 1 from by decide]
  rw [show ((splitOnChar ',' (strOf "session_id,success_rate")).map
      (fun hh => (trimChars hh).map Char.toLower)).findIdx? shopifyOrderIdHeader =
      none from by decide]
  rw [show ((splitOnChar ',' (strOf "session_id,success_rate")).map
      (fun hh => (trimChars hh).map Char.toLower)).findIdx? timestampHeader =
      none from by decide]
  simp [List.filterMap_cons, shopifyRow_pair hsid hrs hv]

theorem numStr_clean {s : Str} (h : ∀ c ∈ s, c.isDigit = true ∨ c = '.' ∨ c = '-') :
    stripQuotes (trimChars s) = s := by
  rw [trimChars_eq_self_of_all (fun c hc => (numChar_props (h c hc)).1)]
  exact stripQuotes_eq_self_of_all
    (fun c hc => ⟨(numChar_props (h c hc)).2.2.2.1, (numChar_props (h c hc)).2.2.2.2⟩)

theorem natDigits_chars (n : Nat) :
    ∀ c ∈ natDigits n, c.isDigit = true ∨ c = '.' ∨ c = '-' :=
  fun c hc => Or.inl (natDigits_all_digit n c hc)

theorem numStr_not_comma {s : Str} (h : ∀ c ∈ s, c.isDigit = true ∨ c = '.' ∨ c = '-') :
    ',' ∉ s :=
  fun hm => (numChar_props (h ',' hm)).2.1 rfl

theorem numStr_not_nl {s : Str} (h : ∀ c ∈ s, c.isDigit = true ∨ c = '.' ∨ c = '-') :
    '\n' ∉ s :=
  fun hm => (numChar_props (h '\n' hm)).2.2.1 rfl

theorem joinLines_ne_nil {xs : List Str} {l : Str} (hl : l ≠ []) :
    joinLines (xs ++ [l]) ≠ [] := by
  cases xs with
  | nil => simpa [joinLines] using hl
  | cons x ys =>
    cases hys : ys ++ [l] with
    | nil => simp at hys
    | cons y zs =>
      show joinLines (x :: (ys ++ [l])) ≠ []
      rw [hys, joinLines]
      simp

theorem joinLines_getLast? {xs : List Str} {l : Str} (hl : l ≠ []) :
    (joinLines (xs ++ [l])).getLast? = l.getLast? := by
  induction xs with
  | nil => rfl
  | cons x ys ih =>
    cases hys : ys ++ [l] with
    | nil => simp at hys
    | cons y zs =>
      show (joinLines (x :: (ys ++ [l]))).getLast? = l.getLast?
      rw [hys, joinLines, ← hys]
      rw [show x ++ '\n' :: joinLines (ys ++ [l]) = (x ++ ['\n']) ++ joinLines (ys ++ [l])
        by simp]
      rw [getLast?_append_right (joinLines_ne_nil hl)]
      exact ih

theorem splitOnChar_joinLines {ls : List Str} (h : ∀ l ∈ ls, '\n' ∉ l) :
    splitOnChar '\n' (joinLines ls) = if ls = [] then [[]] else ls := by
  induction ls with
  | nil => rfl
  | cons x ys ih =>
    cases ys with
    | nil =>
      show splitOnChar '\n' x = if [x] = [] then [[]] else [x]
      rw [splitOnChar_of_not_mem (h x (by simp))]
      simp
    | cons y zs =>
      show splitOnChar '\n' (x ++ '\n' :: joinLines (y :: zs)) = _
      rw [splitOnChar_append _ (h x (by simp))]
      have := ih (fun l hl => h l (List.mem_cons_of_mem x hl))
      rw [if_neg (by simp)] at this
      rw [this]
      simp

theorem exportRow_shape (r : FusedDataPoint) :
    exportRow r = r.sessionId ++ ',' :: (natDigits r.sessionNumber ++ ',' ::
      (ratToString r.sessionLength ++ ',' :: ratToString r.successRate)) := by
  simp [exportRow]

theorem exportRow_not_nl {r : FusedDataPoint} (hid : csvSafe r.sessionId = true) :
    '\n' ∉ exportRow r := by
  rw [exportRow_shape]
  intro hm
  rcases List.mem_append.mp hm with hm | hm
  · exact csvSafe_not_mem_nl hid hm
  · rcases List.mem_cons.mp hm with hm | hm
    · simp at hm
    · rcases List.mem_append.mp hm with hm | hm
      · exact numStr_not_nl (natDigits_chars _) hm
      · rcases List.mem_cons.mp hm with hm | hm
        · simp at hm
        · rcases List.mem_append.mp hm with hm | hm
          · exact numStr_not_nl (ratToString_chars _) hm
          · rcases List.mem_cons.mp hm with hm | hm
            · simp at hm
            · exact numStr_not_nl (ratToString_chars _) hm

theorem exportRow_getLast_ws (r : FusedDataPoint) :
    ∀ c ∈ (exportRow r).getLast?, isWS c = false := by
  intro c hc
  rw [exportRow_shape] at hc
  rw [show r.sessionId ++ ',' :: (natDigits r.sessionNumber ++ ',' ::
      (ratToString r.sessionLength ++ ',' :: ratToString r.successRate)) =
      (r.sessionId ++ [','] ++ natDigits r.sessionNumber ++ [','] ++
        ratToString r.sessionLength ++ [',']) ++ ratToString r.successRate by simp,
    getLast?_append_right (ratToString_ne_nil _)] at hc
  exact (numChar_props (ratToString_chars _ c (getLast?_mem_of (by simpa using hc)))).1

theorem exportRow_ne_nil (r : FusedDataPoint) : exportRow r ≠ [] := by
  rw [exportRow_shape]
  cases h : r.sessionId <;> simp

theorem cells_export {r : FusedDataPoint} (hid : csvSafe r.sessionId = true) :
    (splitOnChar ',' (exportRow r)).map (fun v => stripQuotes (trimChars v)) =
      [r.sessionId, natDigits r.sessionNumber, ratToString r.sessionLength,
        ratToString r.successRate] := by
  rw [exportRow_shape]
  rw [splitOnChar_append _ (csvSafe_not_mem_comma hid),
    splitOnChar_append _ (numStr_not_comma (natDigits_chars _)),
    splitOnChar_append _ (numStr_not_comma (ratToString_chars _)),
    splitOnChar_of_not_mem (numStr_not_comma (ratToString_chars _))]
  simp [csvSafe_trim hid, csvSafe_stripQuotes hid, numStr_clean (natDigits_chars _),
    numStr_clean (ratToString_chars _)]

theorem den_dvd_of_den100 {q : ℚ} (h : (q * 100).den = 1) : ∃ K, q.den ∣ 10 ^ K := by
  refine ⟨2, ?_⟩
  have hz : ((q * 100).num : ℚ) = q * 100 := (Rat.den_eq_one_iff _).mp h
  have hq : (((q * 100).num : ℤ) : ℚ) / (((100 : ℤ) : ℤ) : ℚ) = q := by
    rw [hz]
    push_cast
    exact mul_div_cancel_right₀ q (by norm_num)
  have hdvd := Rat.den_dvd ((q * 100).num) (100 : ℤ)
  rw [Rat.divInt_eq_div, hq] at hdvd
  rw [show ((10 : ℕ) ^ 2) = 100 by norm_num]
  exact_mod_cast hdvd

theorem shopifyRow_export {r : FusedDataPoint} (hid : csvSafe r.sessionId = true)
    (hgt : 1 < r.successRate) (hden : (r.successRate * 100).den = 1) :
    shopifyRow 0 3 none none (exportRow r) =
      some ⟨r.sessionId, none, r.successRate, none⟩ := by
  have hparse : jsParseFloat (ratToString r.successRate) = some r.successRate :=
    jsParseFloat_ratToString (den_dvd_of_den100 hden)
  have hnorm : toFixed2 (normalizeSuccessRate r.successRate) = r.successRate := by
    rw [normalizeSuccessRate, if_neg (not_le.mpr hgt), toFixed2_eq_self hden]
  simp only [shopifyRow, cells_export hid]
  rw [if_neg (by norm_num)]
  rw [show cellAt [r.sessionId, natDigits r.sessionNumber, ratToString r.sessionLength,
    ratToString r.successRate] 3 = ratToString r.successRate from rfl]
  rw [show cellAt [r.sessionId, natDigits r.sessionNumber, ratToString r.sessionLength,
    ratToString r.successRate] 0 = r.sessionId from rfl]
  rw [hparse]
  simp [csvSafe_ne_nil hid, hnorm]

theorem awsRow_export {r : FusedDataPoint} (hid : csvSafe r.sessionId = true)
    (hdur : ∃ K, r.sessionLength.den ∣ 10 ^ K) :
    awsRow 0 2 none none (exportRow r) = some ⟨r.sessionId, r.sessionLength, none, none⟩ := by
  have hparse : jsParseFloat (ratToString r.sessionLength) = some r.sessionLength :=
    jsParseFloat_ratToString hdur
  simp only [awsRow, cells_export hid]
  rw [if_neg (by norm_num)]
  rw [show cellAt [r.sessionId, natDigits r.sessionNumber, ratToString r.sessionLength,
    ratToString r.successRate] 2 = ratToString r.sessionLength from rfl]
  rw [show cellAt [r.sessionId, natDigits r.sessionNumber, ratToString r.sessionLength,
    ratToString r.successRate] 0 = r.sessionId from rfl]
  rw [hparse]
  simp [csvSafe_ne_nil hid]

theorem filterMap_eq_map_of {α β : Type} {l : List α} {f : α → Option β} {g : α → β}
    (h : ∀ x ∈ l, f x = some (g x)) : l.filterMap f = l.map g := by
  induction l with
  | nil => rfl
  | cons x xs ih =>
    rw [List.filterMap_cons, h x (List.mem_cons_self x xs), List.map_cons,
      ih (fun y hy => h y (List.mem_cons_of_mem x hy))]

theorem export_lines {fused : List FusedDataPoint} (hne : fused ≠ [])
    (hsafe : ∀ r ∈ fused, csvSafe r.sessionId = true) :
    splitOnChar '\n' (trimChars (exportData fused)) =
      strOf "Session ID,Session Number,Session Length,Success Rate" ::
        fused.map exportRow := by
  obtain ⟨f', rl, hfr⟩ := (List.eq_nil_or_concat fused).resolve_left hne
  rw [List.concat_eq_append] at hfr
  subst hfr
  have hlinesne : ∀ l ∈ strOf "Session ID,Session Number,Session Length,Success Rate" ::
      (f' ++ [rl]).map exportRow, '\n' ∉ l := by
    intro l hl
    rcases List.mem_cons.mp hl with rfl | hl
    · decide
    · obtain ⟨r, hr, rfl⟩ := List.mem_map.mp hl
      exact exportRow_not_nl (hsafe r hr)
  have htrim : trimChars (exportData (f' ++ [rl])) = exportData (f' ++ [rl]) := by
    apply trimChars_eq_self_of_ends
    · intro c hc
      have hh : (exportData (f' ++ [rl])).head? = some 'S' := by
        rw [exportData]
        cases hrows : (f' ++ [rl]).map exportRow with
        | nil => rfl
        | cons y zs => rfl
      rw [hh] at hc
      simp only [Option.mem_def, Option.some.injEq] at hc
      subst hc
      decide
    · intro c hc
      rw [exportData] at hc
      rw [show strOf "Session ID,Session Number,Session Length,Success Rate" ::
          (f' ++ [rl]).map exportRow =
          (strOf "Session ID,Session Number,Session Length,Success Rate" ::
            f'.map exportRow) ++ [exportRow rl] by simp] at hc
      rw [joinLines_getLast? (exportRow_ne_nil rl)] at hc
      exact exportRow_getLast_ws rl c hc
  rw [htrim, exportData, splitOnChar_joinLines hlinesne, if_neg (by simp)]

theorem parseShopifyCSV_export {fused : List FusedDataPoint} (hne : fused ≠ [])
    (hsafe : ∀ r ∈ fused, csvSafe r.sessionId = true)
    (hrate : ∀ r ∈ fused, 1 < r.successRate ∧ (r.successRate * 100).den = 1) :
    parseShopifyCSV (exportData fused) =
      .ok (fused.map (fun r => ⟨r.sessionId, none, r.successRate, none⟩)) := by
  have hlines := export_lines hne hsafe
  have hdata : (fused.map exportRow).filterMap (shopifyRow 0 3 none none) =
      fused.map (fun r => (⟨r.sessionId, none, r.successRate, none⟩ : ShopifyData)) := by
    rw [List.filterMap_map]
    exact filterMap_eq_map_of
      (fun r hr => shopifyRow_export (hsafe r hr) (hrate r hr).1 (hrate r hr).2)
  simp only [parseShopifyCSV, hlines]
  rw [if_neg (by
    cases fused with
    | nil => exact absurd rfl hne
    | cons f fs => simp)]
  rw [show (strOf "Session ID,Session Number,Session Length,Success Rate" ::
    fused.map exportRow).headD [] =
    strOf "Session ID,Session Number,Session Length,Success Rate" from rfl]
  rw [show ((splitOnChar ','
      (strOf "Session ID,Session Number,Session Length,Success Rate")).map
      (fun hh => (trimChars hh).map Char.toLower)).findIdx? shopifySessionIdHeader =
      some 0 from by decide]
  rw [show ((splitOnChar ','
      (strOf "Session ID,Session Number,Session Length,Success Rate")).map
      (fun hh => (trimChars hh).map Char.toLower)).findIdx? shopifySuccessRateHeader =
      some 3 from by decide]
  rw [show ((splitOnChar ','
      (strOf "Session ID,Session Number,Session Length,Success Rate")).map
      (fun hh => (trimChars hh).map Char.toLower)).findIdx? shopifyOrderIdHeader =
      none from by decide]
  rw [show ((splitOnChar ','
      (strOf "Session ID,Session Number,Session Length,Success Rate")).map
      (fun hh => (trimChars hh).map Char.toLower)).findIdx? timestampHeader =
      none from by decide]
  simp only [List.tail_cons, hdata]
  rw [if_neg (by simp [hne])]

theorem parseAWSCSV_export {fused : List FusedDataPoint} (hne : fused ≠ [])
    (hsafe : ∀ r ∈ fused, csvSafe r.sessionId = true)
    (hdur : ∀ r ∈ fused, ∃ K, r.sessionLength.den ∣ 10 ^ K) :
    parseAWSCSV (exportData fused) =
      .ok (fused.map (fun r => ⟨r.sessionId, r.sessionLength, none, none⟩)) := by
  have hlines := export_lines hne hsafe
  have hdata : (fused.map exportRow).filterMap (awsRow 0 2 none none) =
      fused.map (fun r => (⟨r.sessionId, r.sessionLength, none, none⟩ : AWSData)) := by
    rw [List.filterMap_map]
    exact filterMap_eq_map_of (fun r hr => awsRow_export (hsafe r hr) (hdur r hr))
  simp only [parseAWSCSV, hlines]
  rw [if_neg (by
    cases fused with
    | nil => exact absurd rfl hne
    | cons f fs => simp)]
  rw [show (strOf "Session ID,Session Number,Session Length,Success Rate" ::
    fused.map exportRow).headD [] =
    strOf "Session ID,Session Number,Session Length,Success Rate" from rfl]
  rw [show ((splitOnChar ','
      (strOf "Session ID,Session Number,Session Length,Success Rate")).map
      (fun hh => (trimChars hh).map Char.toLower)).findIdx? awsSessionIdHeader =
      some 0 from by decide]
  rw [show ((splitOnChar ','
      (strOf "Session ID,Session Number,Session Length,Success Rate")).map
      (fun hh => (trimChars hh).map Char.toLower)).findIdx? awsSessionLengthHeader =
      some 2 from by decide]
  rw [show ((splitOnChar ','
      (strOf "Session ID,Session Number,Session Length,Success Rate")).map
      (fun hh => (trimChars hh).map Char.toLower)).findIdx? awsUserIdHeader =
      none from by decide]
  rw [show ((splitOnChar ','
      (strOf "Session ID,Session Number,Session Length,Success Rate")).map
      (fun hh => (trimChars hh).map Char.toLower)).findIdx? timestampHeader =
      none from by decide]
  simp only [List.tail_cons, hdata]
  rw [if_neg (by simp [hne])]

theorem foldl_update_eq_find (a : List AWSData) (m : Str → Option AWSData) (k : Str) :
    (a.foldl (fun m rec => fun k' => if k' = rec.sessionId then some rec else m k') m) k =
      match a.reverse.find? (fun rec => rec.sessionId == k) with
      | some rec => some rec
      | none => m k := by
  induction a generalizing m with
  | nil => rfl
  | cons x xs ih =>
    rw [List.foldl_cons, ih, List.reverse_cons, List.find?_append]
    cases hf : xs.reverse.find? (fun rec => rec.sessionId == k) with
    | some rec => rfl
    | none =>
      show (if k = x.sessionId then some x else m k) =
        match List.find? (fun rec => rec.sessionId == k) [x] with
        | some rec => some rec
        | none => m k
      by_cases h : k = x.sessionId
      · simp [List.find?, h]
      · have : (x.sessionId == k) = false := by
          simp only [beq_eq_false_iff_ne, ne_eq]
          exact fun he => h he.symm
        simp [List.find?, this, h]

theorem awsMapLookup_eq_find (a : List AWSData) (k : Str) :
    awsMapLookup a k = a.reverse.find? (fun rec => rec.sessionId == k) := by
  rw [awsMapLookup, foldl_update_eq_find]
  cases hf : a.reverse.find? (fun rec => rec.sessionId == k) <;> rfl

theorem fuse_foldl_eq (lookup : Str → Option AWSData) (s : List ShopifyData)
    (init : List FusedDataPoint) (n : Nat) :
    (s.foldl (fuseStep lookup) (init, n)).1 =
      init ++ ((s.filterMap (fun sh => (lookup sh.sessionId).map (fun aw => (sh, aw)))).enumFrom
        n).map mkFused := by
  induction s generalizing init n with
  | nil => simp
  | cons sh t ih =>
    rw [List.foldl_cons, List.filterMap_cons]
    cases hl : lookup sh.sessionId with
    | none =>
      rw [show fuseStep lookup (init, n) sh = (init, n) by rw [fuseStep, hl]]
      simpa using ih init n
    | some aws =>
      rw [show fuseStep lookup (init, n) sh =
          (init ++ [⟨sh.sessionId, aws.sessionLength, sh.successRate, n⟩], n + 1) by
        rw [fuseStep, hl]]
      rw [ih]
      simp [mkFused, List.enumFrom]

theorem fuseData_eq (s : List ShopifyData) (a : List AWSData) :
    fuseData s a = sortByLength (((fuseJoin s a).enumFrom 1).map mkFused) := by
  rw [fuseData]
  by_cases hs : s.length = 0
  · rw [if_pos (Or.inl hs)]
    rw [List.length_eq_zero] at hs
    subst hs
    rfl
  · by_cases ha : a.length = 0
    · rw [if_pos (Or.inr ha)]
      rw [List.length_eq_zero] at ha
      subst ha
      have hj : fuseJoin s [] = [] := by
        rw [fuseJoin, List.filterMap_eq_nil_iff]
        intro sh _
        rfl
      rw [hj]
      rfl
    · rw [if_neg (by push_neg; exact ⟨hs, ha⟩)]
      rw [fuse_foldl_eq (awsMapLookup a) s [] 1]
      rfl

theorem awsMapLookup_eq_durationIndex (a : List AWSData) (k : Str) :
    awsMapLookup a k = durationIndex a k :=
  awsMapLookup_eq_find a k

theorem fuseJoin_eq_joinSpec (s : List ShopifyData) (a : List AWSData) :
    fuseJoin s a = joinSpec s a := by
  rw [fuseJoin, joinSpec]
  exact List.filterMap_congr
    (fun sh _ => by rw [awsMapLookup_eq_durationIndex, durationIndex])

theorem filter_orderedInsert (q : ℚ) (x : FusedDataPoint) (l : List FusedDataPoint) :
    (List.orderedInsert byLen x l).filter (fun y => decide (y.sessionLength = q)) =
      (x :: l).filter (fun y => decide (y.sessionLength = q)) := by
  induction l with
  | nil => rfl
  | cons y t ih =>
    rw [List.orderedInsert]
    by_cases h : byLen x y
    · rw [if_pos h]
    · rw [if_neg h]
      have hyx : y.sessionLength < x.sessionLength := lt_of_not_le h
      rw [List.filter_cons, ih, List.filter_cons, List.filter_cons, List.filter_cons]
      by_cases hx : x.sessionLength = q
      · have hy : (decide (y.sessionLength = q)) = false := by
          simp only [decide_eq_false_iff_not]
          intro he
          rw [he, hx] at hyx
          exact lt_irrefl q hyx
        simp [hx, hy]
      · simp [hx]

theorem filter_sortByLength (q : ℚ) (l : List FusedDataPoint) :
    (sortByLength l).filter (fun y => decide (y.sessionLength = q)) =
      l.filter (fun y => decide (y.sessionLength = q)) := by
  rw [sortByLength]
  induction l with
  | nil => rfl
  | cons x t ih =>
    rw [show List.insertionSort byLen (x :: t) =
      List.orderedInsert byLen x (List.insertionSort byLen t) from rfl]
    rw [filter_orderedInsert, List.filter_cons, List.filter_cons, ih]

theorem snd_mem_of_mem_enumFrom {α : Type} {x : Nat × α} {n : Nat} {l : List α}
    (h : x ∈ l.enumFrom n) : x.2 ∈ l := by
  induction l generalizing n with
  | nil => simp [List.enumFrom] at h
  | cons a t ih =>
    rcases List.mem_cons.mp h with he | h
    · rw [he]
      simp
    · exact List.mem_cons_of_mem a (ih h)

theorem shopifyRow_some {si ri : Nat} {oi ti : Option Nat} {line : Str} {r : ShopifyData}
    (h : shopifyRow si ri oi ti line = some r) :
    r.sessionId ≠ [] ∧ ∃ v, r.successRate = toFixed2 (normalizeSuccessRate v) := by
  rw [shopifyRow] at h
  split at h
  · exact Option.noConfusion h
  · split at h
    next v hv =>
      split at h
      · exact Option.noConfusion h
      · next hne =>
          rw [Option.some.injEq] at h
          subst h
          exact ⟨hne, v, rfl⟩
    next => exact Option.noConfusion h

theorem awsRow_some {si li : Nat} {ui ti : Option Nat} {line : Str} {r : AWSData}
    (h : awsRow si li ui ti line = some r) : r.sessionId ≠ [] := by
  rw [awsRow] at h
  split at h
  · exact Option.noConfusion h
  · split at h
    next v hv =>
      split at h
      · exact Option.noConfusion h
      · next hne =>
          rw [Option.some.injEq] at h
          subst h
          exact hne
    next => exact Option.noConfusion h

theorem p6_awsRow_some {pd : Str → Option ℚ} {si : Nat} {li sti eti ui ti : Option Nat}
    {line : Str} {r : AWSData} (h : Part006.awsRow pd si li sti eti ui ti line = some r) :
    r.sessionId ≠ [] ∧ 0 ≤ r.sessionLength ∧ ∃ sl, 0 < sl ∧ r.sessionLength = toFixed2 sl := by
  rw [Part006.awsRow] at h
  split at h
  · exact Option.noConfusion h
  · split at h
    next sl hsl =>
      split at h
      · exact Option.noConfusion h
      · next hcond =>
          push_neg at hcond
          rw [Option.some.injEq] at h
          subst h
          refine ⟨hcond.1, ?_, sl, ?_, rfl⟩
          · exact toFixed2_nonneg (le_of_lt (by simpa using hcond.2))
          · simpa using hcond.2
    next => exact Option.noConfusion h

theorem parseShopifyCSV_ok_shape {csv : Str} {data : List ShopifyData}
    (h : parseShopifyCSV csv = .ok data) :
    ∃ si ri oi ti, data =
      (splitOnChar '\n' (trimChars csv)).tail.filterMap (shopifyRow si ri oi ti) := by
  rw [parseShopifyCSV] at h
  split at h
  · exact Except.noConfusion h
  · dsimp only at h
    split at h
    · split at h
      · exact Except.noConfusion h
      · rw [Except.ok.injEq] at h
        exact ⟨_, _, _, _, h.symm⟩
    · exact Except.noConfusion h

theorem parseAWSCSV_ok_shape {csv : Str} {data : List AWSData}
    (h : parseAWSCSV csv = .ok data) :
    ∃ si li ui ti, data =
      (splitOnChar '\n' (trimChars csv)).tail.filterMap (awsRow si li ui ti) := by
  rw [parseAWSCSV] at h
  split at h
  · exact Except.noConfusion h
  · dsimp only at h
    split at h
    · split at h
      · exact Except.noConfusion h
      · rw [Except.ok.injEq] at h
        exact ⟨_, _, _, _, h.symm⟩
    · exact Except.noConfusion h

theorem p6_parseAWSCSV_ok_shape {pd : Str → Option ℚ} {csv : Str} {data : List AWSData}
    (h : Part006.parseAWSCSV pd csv = .ok data) :
    ∃ si li sti eti ui ti, data =
      (splitOnChar '\n' (trimChars csv)).tail.filterMap
        (Part006.awsRow pd si li sti eti ui ti) := by
  rw [Part006.parseAWSCSV] at h
  split at h
  · exact Except.noConfusion h
  · dsimp only at h
    split at h
    · repeat'
        split at h
      all_goals
        first
          | exact Except.noConfusion h
          | (rw [Except.ok.injEq] at h; exact ⟨_, _, _, _, _, _, h.symm⟩)
    · exact Except.noConfusion h

theorem parseShopifyCSV_mem {csv : Str} {data : List ShopifyData} {r : ShopifyData}
    (h : parseShopifyCSV csv = .ok data) (hr : r ∈ data) :
    r.sessionId ≠ [] ∧ ∃ v, r.successRate = toFixed2 (normalizeSuccessRate v) := by
  obtain ⟨si, ri, oi, ti, hdata⟩ := parseShopifyCSV_ok_shape h
  subst hdata
  obtain ⟨line, _, hline⟩ := List.mem_filterMap.mp hr
  exact shopifyRow_some hline

theorem parseAWSCSV_mem {csv : Str} {data : List AWSData} {r : AWSData}
    (h : parseAWSCSV csv = .ok data) (hr : r ∈ data) : r.sessionId ≠ [] := by
  obtain ⟨si, li, ui, ti, hdata⟩ := parseAWSCSV_ok_shape h
  subst hdata
  obtain ⟨line, _, hline⟩ := List.mem_filterMap.mp hr
  exact awsRow_some hline

theorem p6_parseAWSCSV_mem {pd : Str → Option ℚ} {csv : Str} {data : List AWSData}
    {r : AWSData} (h : Part006.parseAWSCSV pd csv = .ok data) (hr : r ∈ data) :
    r.sessionId ≠ [] ∧ 0 ≤ r.sessionLength ∧ ∃ sl, 0 < sl ∧ r.sessionLength = toFixed2 sl := by
  obtain ⟨si, li, sti, eti, ui, ti, hdata⟩ := p6_parseAWSCSV_ok_shape h
  subst hdata
  obtain ⟨line, _, hline⟩ := List.mem_filterMap.mp hr
  exact p6_awsRow_some hline

theorem fuseData_mem {s : List ShopifyData} {a : List AWSData} {r : FusedDataPoint}
    (hr : r ∈ fuseData s a) : ∃ sh ∈ s, r.sessionId = sh.sessionId := by
  rw [fuseData_eq, sortByLength, List.mem_insertionSort] at hr
  obtain ⟨p, hp, hmk⟩ := List.mem_map.mp hr
  have h2 := snd_mem_of_mem_enumFrom hp
  obtain ⟨sh, hsh, hm⟩ := List.mem_filterMap.mp h2
  cases hlk : awsMapLookup a sh.sessionId with
  | none =>
    rw [hlk] at hm
    exact Option.noConfusion hm
  | some aw =>
    rw [hlk, Option.map_some', Option.some.injEq] at hm
    refine ⟨sh, hsh, ?_⟩
    rw [← hmk, mkFused, ← hm]

theorem length_filterMap_map_eq {α β γ : Type} (f : α → Option β) (g : α → β → γ)
    (l : List α) :
    (l.filterMap (fun x => (f x).map (g x))).length =
      (l.filter (fun x => (f x).isSome)).length := by
  induction l with
  | nil => rfl
  | cons x t ih =>
    rw [List.filterMap_cons, List.filter_cons]
    cases hf : f x with
    | none => simpa [hf] using ih
    | some b => simpa [hf] using ih

theorem fuseData_length (s : List ShopifyData) (a : List AWSData) :
    (fuseData s a).length =
      (s.filter (fun sh => (awsMapLookup a sh.sessionId).isSome)).length := by
  rw [fuseData_eq, sortByLength, (List.perm_insertionSort byLen _).length_eq,
    List.length_map, List.enumFrom_length, fuseJoin, length_filterMap_map_eq]

theorem awsMapLookup_isSome_iff (a : List AWSData) (k : Str) :
    (awsMapLookup a k).isSome = true ↔ k ∈ a.map AWSData.sessionId := by
  rw [awsMapLookup_eq_find, List.find?_isSome]
  constructor
  · rintro ⟨x, hx, hpx⟩
    rw [beq_iff_eq] at hpx
    rw [← hpx]
    exact List.mem_map_of_mem AWSData.sessionId (List.mem_reverse.mp hx)
  · intro hk
    obtain ⟨x, hx, hke⟩ := List.mem_map.mp hk
    exact ⟨x, List.mem_reverse.mpr hx, by rw [beq_iff_eq, hke]⟩

theorem nodup_subset_length_le {α : Type} [DecidableEq α] {l1 l2 : List α}
    (h1 : l1.Nodup) (hsub : ∀ x ∈ l1, x ∈ l2) : l1.length ≤ l2.length :=
  calc l1.length = l1.toFinset.card := (List.toFinset_card_of_nodup h1).symm
    _ ≤ l2.toFinset.card := Finset.card_le_card
        (fun x hx => List.mem_toFinset.mpr (hsub x (List.mem_toFinset.mp hx)))
    _ ≤ l2.length := List.toFinset_card_le l2

theorem nodup_subset_rev {α : Type} [DecidableEq α] {l1 l2 : List α}
    (h1 : l1.Nodup) (h2 : l2.Nodup) (hsub : ∀ x ∈ l1, x ∈ l2)
    (hlen : l2.length ≤ l1.length) : ∀ x ∈ l2, x ∈ l1 := by
  have hfin : l1.toFinset = l2.toFinset := by
    apply Finset.eq_of_subset_of_card_le
      (fun x hx => List.mem_toFinset.mpr (hsub x (List.mem_toFinset.mp hx)))
    rw [List.toFinset_card_of_nodup h1, List.toFinset_card_of_nodup h2]
    exact hlen
  intro x hx
  exact List.mem_toFinset.mp (hfin ▸ List.mem_toFinset.mpr hx)

theorem floor_65_lt {N : Nat} (h : 1 ≤ N) : (⌊(N : ℚ) * (65 / 100)⌋).toNat < N := by
  have hN : (0 : ℚ) < N := by exact_mod_cast h
  have h1 : ((N : ℚ) * (65 / 100)) < N := by nlinarith
  have h2 : ⌊(N : ℚ) * (65 / 100)⌋ < (N : ℤ) := Int.floor_lt.mpr (by exact_mod_cast h1)
  have h0 : (0 : ℤ) ≤ ⌊(N : ℚ) * (65 / 100)⌋ := Int.le_floor.mpr (by positivity)
  omega

theorem foldl_add_eq_sum (l : List FusedDataPoint) (init : ℚ) :
    l.foldl (fun sum p => sum + p.successRate) init =
      init + (l.map (fun p => p.successRate)).sum := by
  induction l generalizing init with
  | nil => simp
  | cons x t ih =>
    rw [List.foldl_cons, ih, List.map_cons, List.sum_cons]
    ring

theorem p6_awsRow_direct {pd : Str → Option ℚ} {sid ds : Str} {v : ℚ}
    (hsid : csvSafe sid = true) (hds : csvSafe ds = true)
    (hv : jsParseFloat ds = some v) :
    Part006.awsRow pd 0 (some 1) none none none none (sid ++ ',' :: ds) =
      if 0 < v then some ⟨sid, toFixed2 v, none, none⟩ else none := by
  simp only [Part006.awsRow, cells_pair hsid hds]
  rw [if_neg (by norm_num)]
  rw [show Part006.rowLength pd [sid, ds] (some 1) none none =
    jsParseFloat (cellAt [sid, ds] 1) from rfl]
  rw [show cellAt [sid, ds] 1 = ds from rfl, hv]
  by_cases hvp : 0 < v
  · simp [show cellAt [sid, ds] 0 = sid from rfl, csvSafe_ne_nil hsid, hvp]
  · simp [hvp]

theorem p6_parseAWSCSV_one_row {pd : Str → Option ℚ} {sid ds : Str} {v : ℚ}
    (hsid : csvSafe sid = true) (hds : csvSafe ds = true)
    (hv : jsParseFloat ds = some v) :
    Part006.parseAWSCSV pd (strOf "session_id,duration" ++ '\n' :: (sid ++ ',' :: ds)) =
      if 0 < v then .ok [⟨sid, toFixed2 v, none, none⟩] else .error .EmptyResult := by
  have hlines := @csv_two_lines (strOf "session_id,duration")
    (sid ++ ',' :: ds) (by decide) (by decide)
    (by intro c hc; simp only [Option.mem_def] at hc
        rw [show (strOf "session_id,duration").head? = some 's' from rfl] at hc
        cases hc; decide)
    (row_not_mem_nl hsid hds)
    (by simp [csvSafe_ne_nil hsid])
    (row_getLast_ws hds)
  simp only [Part006.parseAWSCSV, hlines]
  rw [if_neg (by norm_num)]
  rw [show ([strOf "session_id,duration", sid ++ ',' :: ds].headD [] : Str) =
    strOf "session_id,duration" from rfl]
  rw [show ((splitOnChar ',' (strOf "session_id,duration")).map
      (fun hh => (trimChars hh).map Char.toLower)).findIdx? Part006.awsSessionLengthHeader =
      some 1 from by decide]
  rw [show ((splitOnChar ',' (strOf "session_id,duration")).map
      (fun hh => (trimChars hh).map Char.toLower)).findIdx? Part006.awsSessionIdHeader =
      some 0 from by decide]
  rw [show ((splitOnChar ',' (strOf "session_id,duration")).map
      (fun hh => (trimChars hh).map Char.toLower)).findIdx? Part006.awsUserIdHeader =
      none from by decide]
  rw [show ((splitOnChar ',' (strOf "session_id,duration")).map
      (fun hh => (trimChars hh).map Char.toLower)).findIdx? timestampHeader =
      none from by decide]
  rw [show [strOf "session_id,duration", sid ++ ',' :: ds].tail = [sid ++ ',' :: ds]
    from rfl]
  simp only [Option.isNone_some, Bool.false_eq_true, if_false, Option.isSome_some,
    Bool.true_or, if_true, List.filterMap_cons, List.filterMap_nil,
    p6_awsRow_direct hsid hds hv]
  by_cases hvp : 0 < v
  · simp [hvp]
  · simp [hvp]

theorem p6_timestampDuration_numeric {pd : Str → Option ℚ} {s e : Str} {sN eN : ℚ}
    (hs : Part006.numericBody s = true) (he : Part006.numericBody e = true)
    (hsv : jsParseFloat s = some sN) (hev : jsParseFloat e = some eN) :
    Part006.timestampDuration pd s e =
      some (if sN < 10 ^ 10 then eN - sN else (eN - sN) / 1000) := by
  simp only [Part006.timestampDuration, hsv, hev, hs, he, Bool.and_self, if_true]
  by_cases hlt : sN < 10 ^ 10
  · rw [if_pos hlt, if_pos hlt]
    simp only [Option.map_some', Option.some.injEq]
    field_simp
    ring
  · rw [if_neg hlt, if_neg hlt]
    rfl

/-- C2 fails as stated: the cell `1.234` parses to `v = 1.234 > 1`, which the
claim says is stored unchanged, but `Number(normalized.toFixed(2))` rounds the
stored rate to `1.23`. -/
theorem C2_cex :
    parseShopifyCSV (strOf "session_id,success_rate\ns1,1.234") =
      .ok [⟨strOf "s1", none, 123/100, none⟩] ∧ (123/100 : ℚ) ≠ 1234/1000 := by
  refine ⟨by with_unfolding_all rfl, by norm_num⟩

/-- C2 (amended): for a success-rate cell parsing to `v`, `parseShopifyCSV`
stores the normalized value — `v * 100` when `v ≤ 1`, `v` unchanged otherwise —
rounded to two decimals by the `Number(normalized.toFixed(2))` step; the
boundary `v = 1` is stored as exactly `100`. -/
theorem C2_rate_scaling {sid rs : Str} {v : ℚ} (hsid : csvSafe sid = true)
    (hrs : csvSafe rs = true) (hv : jsParseFloat rs = some v) :
    parseShopifyCSV (strOf "session_id,success_rate" ++ '\n' :: (sid ++ ',' :: rs)) =
      .ok [⟨sid, none, toFixed2 (normalizeSuccessRate v), none⟩] ∧
    (v = 1 → toFixed2 (normalizeSuccessRate v) = 100) := by
  refine ⟨parseShopifyCSV_one_row hsid hrs hv, ?_⟩
  rintro rfl
  with_unfolding_all rfl

/-- C2 witness: the cell `0.5` is stored as `toFixed2 (0.5 * 100) = 50`. -/
theorem C2_wit :
    parseShopifyCSV (strOf "session_id,success_rate" ++ '\n' ::
        (strOf "s1" ++ ',' :: strOf "0.5")) =
      .ok [⟨strOf "s1", none, toFixed2 (normalizeSuccessRate (1/2)), none⟩] :=
  (C2_rate_scaling (by decide) (by decide) (by with_unfolding_all rfl)).1

/-- C4 fails as stated: the duration cell `0.001` parses to a positive value,
so the row passes `part_006`'s `sessionLength > 0` check, but the stored
`Number(sessionLength.toFixed(2))` is exactly `0`, violating
`durationSeconds > 0` at the record level. -/
theorem C4_cex :
    Part006.parseAWSCSV (fun _ => none) (strOf "session_id,duration\ns1,0.001") =
      .ok [⟨strOf "s1", 0, none, none⟩] ∧ ¬(0 : ℚ) > 0 := by
  refine ⟨by with_unfolding_all rfl, by norm_num⟩

/-- C4 (amended): the `part_006` duration parser skips a row whose computed
duration is not positive, so every stored `sessionLength` is the two-decimal
rounding `toFixed2 sl` of some positive `sl` — hence nonnegative, though it
can round down to exactly `0`. -/
theorem C4_duration_positive :
    (∀ (pd : Str → Option ℚ) (csv : Str) (data : List AWSData),
        Part006.parseAWSCSV pd csv = .ok data →
        ∀ r ∈ data, 0 ≤ r.sessionLength ∧ ∃ sl, 0 < sl ∧ r.sessionLength = toFixed2 sl) ∧
    (∀ (pd : Str → Option ℚ) (sid ds : Str) (v : ℚ), csvSafe sid = true →
        csvSafe ds = true → jsParseFloat ds = some v → ¬0 < v →
        Part006.parseAWSCSV pd (strOf "session_id,duration" ++ '\n' :: (sid ++ ',' :: ds)) =
          .error .EmptyResult) := by
  constructor
  · intro pd csv data h r hr
    exact (p6_parseAWSCSV_mem h hr).2
  · intro pd sid ds v hsid hds hv hvn
    rw [p6_parseAWSCSV_one_row hsid hds hv, if_neg hvn]

/-- C4 witness: the non-positive duration cell `-5` is skipped, leaving no
records and the `EmptyResult` error. -/
theorem C4_wit :
    Part006.parseAWSCSV (fun _ => none)
      (strOf "session_id,duration" ++ '\n' :: (strOf "s1" ++ ',' :: strOf "-5")) =
      .error .EmptyResult :=
  C4_duration_positive.2 (fun _ => none) (strOf "s1") (strOf "-5") (-5)
    (by decide) (by decide) (by with_unfolding_all rfl) (by norm_num)

/-- C5 fails as stated: start `1724515200`, end `1724515200.5555` give a
difference of `0.5555` seconds, but the stored `durationSeconds` is the
two-decimal rounding `0.56`, not `end − start` exactly. -/
theorem C5_cex :
    Part006.parseAWSCSV (fun _ => none)
      (strOf "session_id,start_time,end_time\ns1,1724515200,1724515200.5555") =
      .ok [⟨strOf "s1", 14/25, none, some (strOf "1724515200")⟩] ∧
    (14/25 : ℚ) ≠ 5555/10000 := by
  refine ⟨by with_unfolding_all rfl, by norm_num⟩

/-- C5 (amended): on the pure-numeric timestamp path the computed duration is
`end − start` in seconds when the start value is below `1e10` (Unix-seconds
reading) and `(end − start) / 1000` otherwise (already-milliseconds reading),
the stored `sessionLength` being that value rounded to two decimals; the
spec's scenario start `1724515200`, end `1724515202.5` stores `2.5` exactly. -/
theorem C5_timestamp_path (pd : Str → Option ℚ) :
    (∀ (s e : Str) (sN eN : ℚ), Part006.numericBody s = true →
        Part006.numericBody e = true → jsParseFloat s = some sN →
        jsParseFloat e = some eN →
        Part006.timestampDuration pd s e =
          some (if sN < 10 ^ 10 then eN - sN else (eN - sN) / 1000)) ∧
    Part006.parseAWSCSV pd
        (strOf "session_id,start_time,end_time\ns1,1724515200,1724515202.5") =
      .ok [⟨strOf "s1", 5/2, none, some (strOf "1724515200")⟩] := by
  refine ⟨fun s e sN eN hs he hsv hev =>
    p6_timestampDuration_numeric hs he hsv hev, ?_⟩
  with_unfolding_all rfl

/-- C5 witness: numeric strings `100` and `102.5` take the Unix-seconds
branch and yield `2.5` seconds. -/
theorem C5_wit :
    Part006.timestampDuration (fun _ => none) (strOf "100") (strOf "102.5") =
      some (if (100 : ℚ) < 10 ^ 10 then (205/2 : ℚ) - 100
        else ((205/2 : ℚ) - 100) / 1000) :=
  (C5_timestamp_path (fun _ => none)).1 (strOf "100") (strOf "102.5") 100 (205/2)
    (by decide) (by decide) (by with_unfolding_all rfl) (by with_unfolding_all rfl)

/-- C6 fails as stated: the cell `250` parses to `v = 250 > 1`, which the
parser stores unchanged — no clamping to the 0–100 scale happens. -/
theorem C6_cex :
    parseShopifyCSV (strOf "session_id,success_rate\ns1,250") =
      .ok [⟨strOf "s1", none, 250, none⟩] ∧ ¬((250 : ℚ) ≤ 100) := by
  refine ⟨by with_unfolding_all rfl, by norm_num⟩

/-- C6 (amended): every stored successRate is the rounded normalization
`toFixed2 (normalizeSuccessRate v)` of some parsed cell value `v`, and that
normalization lands in `[0, 100]` whenever the cell value itself lies in
`[0, 100]`; out-of-range inputs pass through unclamped. -/
theorem C6_rate_range :
    (∀ (csv : Str) (data : List ShopifyData), parseShopifyCSV csv = .ok data →
        ∀ r ∈ data, ∃ v, r.successRate = toFixed2 (normalizeSuccessRate v)) ∧
    (∀ v : ℚ, 0 ≤ v → v ≤ 100 →
        0 ≤ toFixed2 (normalizeSuccessRate v) ∧
        toFixed2 (normalizeSuccessRate v) ≤ 100) := by
  constructor
  · intro csv data h r hr
    exact (parseShopifyCSV_mem h hr).2
  · intro v h0 h100
    rw [normalizeSuccessRate]
    by_cases hle : v ≤ 1
    · rw [if_pos hle]
      exact ⟨toFixed2_nonneg (by positivity), toFixed2_le_100 (by positivity) (by nlinarith)⟩
    · rw [if_neg hle]
      exact ⟨toFixed2_nonneg h0, toFixed2_le_100 h0 h100⟩

/-- C6 witness: the in-range fraction `0.5` normalizes into `[0, 100]`. -/
theorem C6_wit :
    0 ≤ toFixed2 (normalizeSuccessRate (1/2)) ∧
    toFixed2 (normalizeSuccessRate (1/2)) ≤ 100 :=
  C6_rate_range.2 (1/2) (by norm_num) (by norm_num)

/-- C9 fails as stated: a header-only CSV splits into a single line, so the
two-line guard fires first and `parseShopifyCSV` reports `MalformedInput`,
not `EmptyResult`. -/
theorem C9_cex :
    parseShopifyCSV (strOf "session_id,success_rate") = .error .MalformedInput ∧
    ParseError.MalformedInput ≠ ParseError.EmptyResult := by
  refine ⟨by with_unfolding_all rfl, by decide⟩

/-- C9 (amended): any CSV whose trimmed text splits into fewer than two
lines — the header-only case included — fails with `MalformedInput`;
`EmptyResult` is the error for a parseable header followed by data rows none
of which yields a record. -/
theorem C9_empty_errors :
    (∀ csv : Str, (splitOnChar '\n' (trimChars csv)).length < 2 →
        parseShopifyCSV csv = .error .MalformedInput) ∧
    parseShopifyCSV (strOf "session_id,success_rate\nx,abc") =
      .error .EmptyResult := by
  constructor
  · intro csv h
    simp only [parseShopifyCSV]
    rw [if_pos h]
  · with_unfolding_all rfl

/-- C9 witness: a one-line text is rejected as `MalformedInput`. -/
theorem C9_wit :
    parseShopifyCSV (strOf "hello") = .error .MalformedInput :=
  C9_empty_errors.1 (strOf "hello") (by decide)

/-- C10: both parsers skip a data row whose session-id cell is empty even when
the numeric field parses, every record either parser emits carries a non-empty
sessionId, and so does every fused record built from parsed inputs. -/
theorem C10_session_ids :
    (∀ (si ri : Nat) (oi ti : Option Nat) (line : Str),
        cellAt ((splitOnChar ',' line).map (fun v => stripQuotes (trimChars v))) si = [] →
        shopifyRow si ri oi ti line = none) ∧
    (∀ (si li : Nat) (ui ti : Option Nat) (line : Str),
        cellAt ((splitOnChar ',' line).map (fun v => stripQuotes (trimChars v))) si = [] →
        awsRow si li ui ti line = none) ∧
    (∀ (csv : Str) (data : List ShopifyData), parseShopifyCSV csv = .ok data →
        ∀ r ∈ data, r.sessionId ≠ []) ∧
    (∀ (csv : Str) (data : List AWSData), parseAWSCSV csv = .ok data →
        ∀ r ∈ data, r.sessionId ≠ []) ∧
    (∀ (scsv acsv : Str) (sd : List ShopifyData) (ad : List AWSData),
        parseShopifyCSV scsv = .ok sd → parseAWSCSV acsv = .ok ad →
        ∀ r ∈ fuseData sd ad, r.sessionId ≠ []) := by
  refine ⟨?_, ?_, ?_, ?_, ?_⟩
  · intro si ri oi ti line hcell
    simp only [shopifyRow, hcell]
    split
    · rfl
    · split
      · simp
      · rfl
  · intro si li ui ti line hcell
    simp only [awsRow, hcell]
    split
    · rfl
    · split
      · simp
      · rfl
  · intro csv data h r hr
    exact (parseShopifyCSV_mem h hr).1
  · intro csv data h r hr
    exact parseAWSCSV_mem h hr
  · intro scsv acsv sd ad hs ha r hr
    obtain ⟨sh, hsh, heq⟩ := fuseData_mem hr
    rw [heq]
    exact (parseShopifyCSV_mem hs hsh).1

/-- C10 witness: the row `,5` has an empty id cell and is skipped although
its numeric field parses. -/
theorem C10_wit :
    shopifyRow 0 1 none none (strOf ",5") = none :=
  C10_session_ids.1 0 1 none none (strOf ",5") (by decide)

/-- C1: `fuseData` equals the claim-modelled pipeline — the stable
ascending-by-duration sort of the inner join built by last-write-wins
indexing of the duration records and an in-order scan of the success
records — its output is sorted by duration, and records of equal duration
keep their pre-sort relative order. -/
theorem C1_fuser_spec (s : List ShopifyData) (a : List AWSData) :
    fuseData s a = fuseSpec s a ∧
    List.Sorted byLen (fuseData s a) ∧
    ∀ q : ℚ, (fuseData s a).filter (fun y => decide (y.sessionLength = q)) =
      (((joinSpec s a).enumFrom 1).map mkFused).filter
        (fun y => decide (y.sessionLength = q)) := by
  refine ⟨?_, ?_, ?_⟩
  · rw [fuseData_eq, fuseSpec, fuseJoin_eq_joinSpec]
  · rw [fuseData_eq]
    exact List.sorted_insertionSort byLen _
  · intro q
    rw [fuseData_eq, fuseJoin_eq_joinSpec]
    exact filter_sortByLength q _

/-- C3: whenever `generateFusionReport` returns a summary, `totalSessions` is
the larger input size, `matchedSessions` the fused count `N ≥ 1`,
`inflectionPoint` the duration at index `floor(N * 0.65)` (in range), and the
early/late rates are the means of the rates below/from that index, `0` on an
empty slice. -/
theorem C3_report_stats {s : List ShopifyData} {a : List AWSData}
    {st : FusionStats} (h : generateFusionReport s a = some st) :
    1 ≤ (fuseData s a).length ∧
    st.totalSessions = max s.length a.length ∧
    st.matchedSessions = (fuseData s a).length ∧
    (∃ hk : (⌊((fuseData s a).length : ℚ) * (65 / 100)⌋).toNat < (fuseData s a).length,
      st.inflectionPoint = ((fuseData s a).get
        ⟨(⌊((fuseData s a).length : ℚ) * (65 / 100)⌋).toNat, hk⟩).sessionLength) ∧
    st.earlySuccessRate = specMean (((fuseData s a).take
      (⌊((fuseData s a).length : ℚ) * (65 / 100)⌋).toNat).map
        (fun p => p.successRate)) ∧
    st.lateSuccessRate = specMean (((fuseData s a).drop
      (⌊((fuseData s a).length : ℚ) * (65 / 100)⌋).toNat).map
        (fun p => p.successRate)) := by
  simp only [generateFusionReport] at h
  split at h
  · exact Option.noConfusion h
  · split at h
    · exact Option.noConfusion h
    · rename_i hfz
      rw [Option.some.injEq] at h
      subst h
      have hN : 1 ≤ (fuseData s a).length := Nat.one_le_iff_ne_zero.mpr hfz
      have hk := floor_65_lt hN
      refine ⟨hN, rfl, rfl, ⟨hk, ?_⟩, ?_, ?_⟩
      · rw [List.get?_eq_get hk]
        rfl
      · by_cases he : (fuseData s a).take
            (⌊((fuseData s a).length : ℚ) * (65 / 100)⌋).toNat = []
        · dsimp only
          rw [he]
          simp [specMean]
        · have hl : 0 < ((fuseData s a).take
              (⌊((fuseData s a).length : ℚ) * (65 / 100)⌋).toNat).length :=
            List.length_pos.mpr he
          have hmne : ((fuseData s a).take
              (⌊((fuseData s a).length : ℚ) * (65 / 100)⌋).toNat).map
                (fun p => p.successRate) ≠ [] :=
            fun hc => he (List.map_eq_nil_iff.mp hc)
          dsimp only
          rw [if_pos hl, specMean, if_neg hmne, foldl_add_eq_sum,
            zero_add, List.length_map]
      · have hdl : 0 < ((fuseData s a).drop
            (⌊((fuseData s a).length : ℚ) * (65 / 100)⌋).toNat).length := by
          rw [List.length_drop]
          omega
        have hdne := List.length_pos.mp hdl
        have hmne : ((fuseData s a).drop
            (⌊((fuseData s a).length : ℚ) * (65 / 100)⌋).toNat).map
              (fun p => p.successRate) ≠ [] :=
          fun hc => hdne (List.map_eq_nil_iff.mp hc)
        dsimp only
        rw [if_pos hdl, specMean, if_neg hmne, foldl_add_eq_sum,
          zero_add, List.length_map]

/-- C3 witness: a concrete two-by-two run where the summary is
`⟨2, 2, 9, 90, 40⟩`. -/
theorem C3_wit :
    (⟨2, 2, 9, 90, 40⟩ : FusionStats).totalSessions =
      max ([⟨strOf "a", none, 90, none⟩, ⟨strOf "b", none, 40, none⟩] :
          List ShopifyData).length
        ([⟨strOf "a", 5, none, none⟩, ⟨strOf "b", 9, none, none⟩] :
          List AWSData).length :=
  (C3_report_stats (by with_unfolding_all rfl)).2.1

/-- C7 fails as stated: two success records sharing one id both match the
single duration record, so the fused count `2` exceeds
`min |SuccessRecords| |DurationRecords| = 1`. -/
theorem C7_cex :
    (fuseData [⟨strOf "s1", none, 50, none⟩, ⟨strOf "s1", none, 60, none⟩]
        [⟨strOf "s1", 2, none, none⟩]).length = 2 ∧
    min ([⟨strOf "s1", none, 50, none⟩, ⟨strOf "s1", none, 60, none⟩] :
        List ShopifyData).length
      ([⟨strOf "s1", 2, none, none⟩] : List AWSData).length = 1 ∧
    ¬(2 ≤ 1) := by
  refine ⟨by with_unfolding_all rfl, by decide, by decide⟩

/-- C7 (amended): when the success records carry pairwise distinct session
ids, the fused count is at most `min` of the two input sizes, and attaining
the bound forces one side's id set to be contained in the other's; duplicate
success-side ids can break the bound. -/
theorem C7_matched_bound {s : List ShopifyData} {a : List AWSData}
    (hnd : (s.map ShopifyData.sessionId).Nodup) :
    (fuseData s a).length ≤ min s.length a.length ∧
    ((fuseData s a).length = min s.length a.length →
      (∀ x ∈ s.map ShopifyData.sessionId, x ∈ a.map AWSData.sessionId) ∨
      (∀ x ∈ a.map AWSData.sessionId, x ∈ s.map ShopifyData.sessionId)) := by
  have hFnd : (((s.filter (fun sh => (awsMapLookup a sh.sessionId).isSome)).map
      ShopifyData.sessionId)).Nodup :=
    hnd.sublist ((List.filter_sublist s).map ShopifyData.sessionId)
  have hFsub : ∀ x ∈ (s.filter (fun sh => (awsMapLookup a sh.sessionId).isSome)).map
      ShopifyData.sessionId, x ∈ a.map AWSData.sessionId := by
    intro x hx
    obtain ⟨sh, hsh, rfl⟩ := List.mem_map.mp hx
    exact (awsMapLookup_isSome_iff a sh.sessionId).mp (List.mem_filter.mp hsh).2
  constructor
  · refine le_min ?_ ?_
    · rw [fuseData_length]
      exact List.length_filter_le _ s
    · rw [fuseData_length]
      calc (s.filter (fun sh => (awsMapLookup a sh.sessionId).isSome)).length
          = ((s.filter (fun sh => (awsMapLookup a sh.sessionId).isSome)).map
              ShopifyData.sessionId).length := (List.length_map _ _).symm
        _ ≤ (a.map AWSData.sessionId).length := nodup_subset_length_le hFnd hFsub
        _ = a.length := List.length_map _ _
  · intro heq
    rcases le_or_lt s.length a.length with hsa | has
    · left
      have hfl : (s.filter (fun sh => (awsMapLookup a sh.sessionId).isSome)).length =
          s.length := by
        rw [← fuseData_length, heq, min_eq_left hsa]
      have hall := List.filter_length_eq_length.mp hfl
      intro x hx
      obtain ⟨sh, hsh, rfl⟩ := List.mem_map.mp hx
      exact (awsMapLookup_isSome_iff a sh.sessionId).mp (hall sh hsh)
    · right
      have hFa : ((s.filter (fun sh => (awsMapLookup a sh.sessionId).isSome)).map
          ShopifyData.sessionId).length = a.length := by
        rw [List.length_map, ← fuseData_length, heq, min_eq_right has.le]
      have hsub2 : ∀ x ∈ (s.filter (fun sh => (awsMapLookup a sh.sessionId).isSome)).map
          ShopifyData.sessionId, x ∈ (a.map AWSData.sessionId).dedup :=
        fun x hx => List.mem_dedup.mpr (hFsub x hx)
      have hlen2 : (a.map AWSData.sessionId).dedup.length ≤
          ((s.filter (fun sh => (awsMapLookup a sh.sessionId).isSome)).map
            ShopifyData.sessionId).length := by
        rw [hFa]
        calc (a.map AWSData.sessionId).dedup.length
            ≤ (a.map AWSData.sessionId).length :=
              (List.dedup_sublist _).length_le
          _ = a.length := List.length_map _ _
      have hrev := nodup_subset_rev hFnd (List.nodup_dedup _) hsub2 hlen2
      intro x hx
      have hxF := hrev x (List.mem_dedup.mpr hx)
      obtain ⟨sh, hsh, rfl⟩ := List.mem_map.mp hxF
      exact List.mem_map_of_mem _ (List.mem_of_mem_filter hsh)

/-- C7 witness: two distinct success ids against one duration record, fused
count `1 ≤ min 2 1`. -/
theorem C7_wit :
    (fuseData [⟨strOf "a", none, 90, none⟩, ⟨strOf "b", none, 40, none⟩]
        [⟨strOf "a", 5, none, none⟩]).length ≤
      min ([⟨strOf "a", none, 90, none⟩, ⟨strOf "b", none, 40, none⟩] :
          List ShopifyData).length
        ([⟨strOf "a", 5, none, none⟩] : List AWSData).length :=
  (C7_matched_bound (by decide)).1

/-- C8 fails as stated: a fused record with `successRate = 0.5` exports as the
cell `0.5`, which the success-side re-parse normalizes to `50`, so the round
trip does not reproduce the original triple. -/
theorem C8_cex :
    parseShopifyCSV (exportData [⟨strOf "s1", 2, 1/2, 1⟩]) =
      .ok [⟨strOf "s1", none, 50, none⟩] ∧ (50 : ℚ) ≠ 1/2 := by
  refine ⟨by with_unfolding_all rfl, by norm_num⟩

/-- C8 (amended): for a nonempty fused set whose ids are CSV-safe, whose rates
exceed `1` and carry at most two decimals, and whose durations are finite
decimals, re-parsing the exported CSV through the success-side parser returns
every `(sessionId, successRate)` pair and through the duration-side parser
every `(sessionId, sessionLength)` pair, both in export order; rates `≤ 1` are
re-normalized on the way back and break the round trip. -/
theorem C8_round_trip {fused : List FusedDataPoint} (hne : fused ≠ [])
    (hsafe : ∀ r ∈ fused, csvSafe r.sessionId = true)
    (hrate : ∀ r ∈ fused, 1 < r.successRate ∧ (r.successRate * 100).den = 1)
    (hdur : ∀ r ∈ fused, ∃ K, r.sessionLength.den ∣ 10 ^ K) :
    parseShopifyCSV (exportData fused) =
      .ok (fused.map (fun r => ⟨r.sessionId, none, r.successRate, none⟩)) ∧
    parseAWSCSV (exportData fused) =
      .ok (fused.map (fun r => ⟨r.sessionId, r.sessionLength, none, none⟩)) :=
  ⟨parseShopifyCSV_export hne hsafe hrate, parseAWSCSV_export hne hsafe hdur⟩

/-- C8 witness: the single record `(s1, 2.5, 90, 1)` survives the round trip
through both parsers. -/
theorem C8_wit :
    parseShopifyCSV (exportData [⟨strOf "s1", 5/2, 90, 1⟩]) =
      .ok (([⟨strOf "s1", 5/2, 90, 1⟩] : List FusedDataPoint).map
        (fun r => ⟨r.sessionId, none, r.successRate, none⟩)) ∧
    parseAWSCSV (exportData [⟨strOf "s1", 5/2, 90, 1⟩]) =
      .ok (([⟨strOf "s1", 5/2, 90, 1⟩] : List FusedDataPoint).map
        (fun r => ⟨r.sessionId, r.sessionLength, none, none⟩)) :=
  C8_round_trip (List.cons_ne_nil _ _) (by decide)
    (by
      intro r hr
      rw [List.mem_singleton] at hr
      subst hr
      exact ⟨by norm_num, by with_unfolding_all rfl⟩)
    (by
      intro r hr
      rw [List.mem_singleton] at hr
      subst hr
      exact ⟨1, 5, by with_unfolding_all rfl⟩)
